import Mathlib

/-!
Verification of the Hetzner fleet-lifecycle scripts
(`hetzner-monit-neo.py`, `hetzner.py`, and the unnamed legacy variant).

The Python code is shallowly embedded: every network call is replaced by an
explicit oracle parameter (a poll function or a response stream), wall-clock
times are minutes since midnight, and Python float division of traffic
counters is modelled by exact rational division.  Each definition mirrors one
function of the source; the theorems at the end of the file settle the
specification claims.
-/

/-! ## Time window scheduler (`TimeWindowManager`, hetzner-monit-neo.py 31-98) -/

/-- Configuration of `TimeWindowManager.__init__`: `start_time = time(start_hour, 0)`,
`end_time = time(end_hour, end_minute)`.  Times are modelled at minute
resolution as minutes since midnight. -/
structure TimeWindowManager where
  start_hour : Nat
  end_hour : Nat
  end_minute : Nat
deriving DecidableEq

/-- Minutes since midnight of `self.start_time` (= `time(start_hour, 0)`). -/
def start_min (w : TimeWindowManager) : Nat := w.start_hour * 60

/-- Minutes since midnight of `self.end_time` (= `time(end_hour, end_minute)`). -/
def end_min (w : TimeWindowManager) : Nat := w.end_hour * 60 + w.end_minute

/-- `self.crosses_midnight = start_hour > end_hour` (line 38). -/
def crosses_midnight (w : TimeWindowManager) : Bool := decide (w.end_hour < w.start_hour)

/-- `TimeWindowManager.is_in_work_window` (lines 40-47); `now` is minutes since
midnight. -/
def is_in_work_window (w : TimeWindowManager) (now : Nat) : Bool :=
  if crosses_midnight w then decide (start_min w ≤ now) || decide (now ≤ end_min w)
  else decide (start_min w ≤ now) && decide (now ≤ end_min w)

/-- `TimeWindowManager.should_delete_servers` (lines 49-61); `servers_deleted`
is the sticky teardown flag. -/
def should_delete_servers (w : TimeWindowManager) (servers_deleted : Bool) (now : Nat) : Bool :=
  if servers_deleted then false
  else if crosses_midnight w then decide (end_min w < now) && decide (now < start_min w)
  else decide (end_min w < now)

/-! ## Traffic usage computation (C5)

`hetzner-monit-neo.py` 741-744 and `hetzner.py` 262-265 compute
`outgoing = int(server.get('outgoing_traffic', 0))`,
`included = int(server.get('included_traffic', 1))`, `usage = outgoing / included`;
the unnamed legacy variant (part_000, 464-476) instead guards the division with
`if included_traffic > 0 else 0`.  A field may be absent from the fetched JSON
(`Option`), in which case the `.get` default applies.  Python raises
`ZeroDivisionError` on a zero divisor, modelled by `none`; float division is
modelled by exact rational division. -/

/-- Traffic counters of one fetched server record; `none` = field absent. -/
structure TrafficCounters where
  outgoing_traffic : Option Nat
  included_traffic : Option Nat
deriving DecidableEq

/-- Usage computation of hetzner-monit-neo.py 741-744 (identical in
hetzner.py 262-265): `outgoing / included` with defaults 0 and 1, raising
(`none`) when the included-traffic field is present with value 0. -/
def usage_neo (s : TrafficCounters) : Option ℚ :=
  let outgoing := s.outgoing_traffic.getD 0
  let included := s.included_traffic.getD 1
  if included = 0 then none
  else some ((outgoing : ℚ) / (included : ℚ))

/-- Usage computation of the legacy variant (part_000, 464-476):
`outgoing / included if included > 0 else 0` — never raises. -/
def usage_legacy (s : TrafficCounters) : Option ℚ :=
  let outgoing := s.outgoing_traffic.getD 0
  let included := s.included_traffic.getD 1
  some (if 0 < included then (outgoing : ℚ) / (included : ℚ) else 0)

/-! ## Server creation with type fallback (C2)

`HetznerServerManager.create_server_with_types` (hetzner-monit-neo.py 469-520)
loops over the `server_types` priority list; for each type it makes up to 3
creation requests.  A 201 response returns immediately; a non-201 response
whose JSON body has an `error` key — including the provider's
`primary_ip_assigned` ("address still assigned") error — executes `break`,
abandoning the type; an unparsable body also breaks; a body without an
`error` key falls through to the next attempt; a `requests` exception sleeps
5 s and retries the same type.  The HTTP exchanges are modelled by a response
oracle `resps k t` giving the provider's response to the `k`-th request,
which asked for server type `t`. -/

/-- Fields of a successful creation response used by the caller. -/
structure CreateInfo where
  id : Nat
  server_type : String
  new_ip : String
deriving DecidableEq

/-- Provider response to one creation request. -/
inductive CreateResp where
  /-- status 201; body carries the new id, actual type name and IPv4. -/
  | created (info : CreateInfo)
  /-- non-201 status, JSON body with an `error` key (message given). -/
  | errJson (msg : String)
  /-- non-201 status, JSON body parses but has no `error` key. -/
  | noErrJson
  /-- non-201 status, body is not JSON (`response.json()` raises). -/
  | badJson
  /-- the request itself raised (network error). -/
  | exn
deriving DecidableEq

/-- Inner attempt loop (`for attempt in range(3)`) for one server type `t`,
starting at request counter `k`; returns the created info (or `none` when the
loop breaks or exhausts its attempts) and the next request counter. -/
def create_attempts (resps : Nat → Nat → CreateResp) (t : Nat) :
    Nat → Nat → Option CreateInfo × Nat
  | 0, k => (none, k)
  | fuel + 1, k =>
    match resps k t with
    | .created info => (some info, k + 1)
    | .errJson _ => (none, k + 1)
    | .badJson => (none, k + 1)
    | .noErrJson => create_attempts resps t fuel (k + 1)
    | .exn => create_attempts resps t fuel (k + 1)

/-- `create_server_with_types` (hetzner-monit-neo.py 469-520): outer loop over
the type priority list, three attempts per type, starting at request
counter `k`. -/
def create_server_with_types (resps : Nat → Nat → CreateResp) :
    List Nat → Nat → Option CreateInfo × Nat
  | [], k => (none, k)
  | t :: ts, k =>
    match create_attempts resps t 3 k with
    | (some info, k') => (some info, k')
    | (none, k') => create_server_with_types resps ts k'

/-! `HetznerServerManager.create_server_from_snapshot` (hetzner.py 167-223):
first waits for the primary IP to be released (12 polls); then makes up to 3
creation requests with a fixed server type 110.  A 422 response with error
code `primary_ip_assigned` sleeps 10 s and retries (`continue`); other error
statuses raise and are caught, retrying after 5 s unless this was the last
attempt; a 2xx non-201 body falls through to the next attempt. -/

/-- Provider response to one `create_server_from_snapshot` request. -/
inductive SnapResp where
  /-- status 201 with the new server id. -/
  | created (id : Nat)
  /-- status 422 with error code `primary_ip_assigned`: backoff and retry. -/
  | ipAssigned422
  /-- other error status: `raise_for_status` raises, caught by `except`. -/
  | errorStatus
  /-- 2xx but not 201: falls through the loop body. -/
  | otherOk
  /-- the request itself raised. -/
  | exn
deriving DecidableEq

/-- Attempt loop of `create_server_from_snapshot` (`for attempt in
range(max_attempts)` with `max_attempts = 3`); on an exception during the
last attempt the function returns `None` immediately. -/
def snapshot_attempts (resps : Nat → SnapResp) : Nat → Nat → Option Nat × Nat
  | 0, k => (none, k)
  | fuel + 1, k =>
    match resps k with
    | .created id => (some id, k + 1)
    | .ipAssigned422 => snapshot_attempts resps fuel (k + 1)
    | .otherOk => snapshot_attempts resps fuel (k + 1)
    | .errorStatus => if fuel = 0 then (none, k + 1) else snapshot_attempts resps fuel (k + 1)
    | .exn => if fuel = 0 then (none, k + 1) else snapshot_attempts resps fuel (k + 1)

/-- `wait_for_ip_ready` (hetzner.py 146-165): up to 12 polls of the primary-IP
record; `polls i = true` means the `assignee_id` was `None` on poll `i`. -/
def ip_release_polls (polls : Nat → Bool) : Nat → Nat → Bool
  | _, 0 => false
  | i, fuel + 1 => if polls i then true else ip_release_polls polls (i + 1) fuel

/-- `wait_for_ip_ready` with its fixed budget of 12 polls. -/
def wait_for_ip_ready (polls : Nat → Bool) : Bool := ip_release_polls polls 0 12

/-- `create_server_from_snapshot` (hetzner.py 167-223): IP-release wait, then
the bounded attempt loop with the fixed server type 110. -/
def create_server_from_snapshot (polls : Nat → Bool) (resps : Nat → SnapResp) : Option Nat :=
  if wait_for_ip_ready polls then (snapshot_attempts resps 3 0).1 else none

/-- Claim C2's scenario oracle: the first request fails with the provider's
"address still assigned" error, every later request succeeds, reporting the
type name actually requested (`cx43` is type 116, `cpx22` is type 110). -/
def c2_scenario_resps : Nat → Nat → CreateResp := fun k t =>
  if k = 0 then .errJson "primary_ip_assigned"
  else .created ⟨2, if t = 116 then "cx43" else if t = 110 then "cpx22" else "other", "1.2.3.4"⟩

/-! ## Deletion confirmation and rebuild (C6)

`HetznerServerManager.delete_server` (hetzner-monit-neo.py 424-439) issues the
DELETE (modelled by `deleteOk`: `false` when the request raised) and then
polls the server's existence at most 24 times at a fixed 5 s interval;
`polls i = true` means poll `i` observed status 404 (server absent).
`rebuild_server` (522-552) aborts with a failure outcome — without calling
`create_server_with_types` — when the snapshot id is missing or deletion was
not confirmed. -/

/-- Bounded existence-poll loop of `delete_server` (`for _ in range(24)`). -/
def deletion_polls (polls : Nat → Bool) : Nat → Nat → Bool
  | _, 0 => false
  | i, fuel + 1 => if polls i then true else deletion_polls polls (i + 1) fuel

/-- `delete_server` (hetzner-monit-neo.py 424-439). -/
def delete_server (deleteOk : Bool) (polls : Nat → Bool) : Bool :=
  if deleteOk then deletion_polls polls 0 24 else false

/-- The fields of a server record that `rebuild_server` reads. -/
structure SrvDesc where
  name : String
  old_ip : Option String
  snapshot_id : Option Nat
deriving DecidableEq

/-- Result dictionary of `rebuild_server`; absent keys are `none`. -/
structure RebuildOutcome where
  name : String
  success : Bool
  error : Option String
  new_ip : Option String
  old_ip : Option String
  server_type : Option String
deriving DecidableEq

/-- `rebuild_server` (hetzner-monit-neo.py 522-552).  The returned flag
records whether `create_server_with_types` was invoked. -/
def rebuild_server (deleteOk : Bool) (polls : Nat → Bool)
    (resps : Nat → Nat → CreateResp) (server_types : List Nat) (s : SrvDesc) :
    RebuildOutcome × Bool :=
  match s.snapshot_id with
  | none => (⟨s.name, false, some "缺失快照ID", none, none, none⟩, false)
  | some _ =>
    if delete_server deleteOk polls then
      match (create_server_with_types resps server_types 0).1 with
      | none => (⟨s.name, false, some "创建失败", none, none, none⟩, true)
      | some info =>
        (⟨s.name, true, none, some info.new_ip, s.old_ip, some info.server_type⟩, true)
    else (⟨s.name, false, some "删除失败", none, none, none⟩, false)

/-! ## Monitoring pass with fleet-size cap (C8)

`HetznerServerManager.check_and_process_servers` (hetzner-monit-neo.py
730-771) walks the fetched server list once; every server whose usage ratio
meets the threshold is either rebuilt (when `should_rebuild_more_servers`
allows) or recorded as a capped skip.  `rebuilt_count` is incremented only
when the rebuild result reports success.  Rebuild invocations are modelled by
the oracle `reb k` (success of the `k`-th rebuild call of the cycle); a
record whose quota field is present with value 0 aborts the cycle with a
`ZeroDivisionError` (`none`). -/

/-- One fetched server record as read by the monitoring pass. -/
structure MonServer where
  name : String
  traffic : TrafficCounters
deriving DecidableEq

/-- `should_rebuild_more_servers` (hetzner-monit-neo.py 651-655). -/
def should_rebuild_more_servers (max_servers current_count : Nat) : Bool :=
  if max_servers = 0 then true else decide (current_count < max_servers)

/-- One entry of the `processed` list. -/
inductive ProcEntry where
  /-- outcome of a `rebuild_server` call (success flag of its result). -/
  | rebuilt (name : String) (success : Bool)
  /-- the capped-skip record `{'name': ..., 'success': False, 'error': '已达数量限制'}`. -/
  | cappedSkip (name : String)
deriving DecidableEq

/-- Number of successful rebuild entries in a `processed` list. -/
def success_count : List ProcEntry → Nat
  | [] => 0
  | .rebuilt _ true :: es => success_count es + 1
  | .rebuilt _ false :: es => success_count es
  | .cappedSkip _ :: es => success_count es

/-- Whether an entry is the capped-skip record. -/
def ProcEntry.isCappedSkip : ProcEntry → Bool
  | .cappedSkip _ => true
  | _ => false

/-- The over-threshold test `usage >= self.traffic_threshold` of line 757,
defined on the non-raising region (callers establish `usage_neo _ ≠ none`). -/
def over_threshold (threshold : ℚ) (s : MonServer) : Bool :=
  match usage_neo s.traffic with
  | some u => decide (threshold ≤ u)
  | none => false

/-- The rebuild/cap loop of `check_and_process_servers` (lines 741-771):
given the remaining servers, the rebuild oracle index `k` and the running
`rebuilt_count`, produce the `processed` entries, the final count and the
next oracle index (`none` when a zero quota raised mid-loop). -/
def process_servers (threshold : ℚ) (max_servers : Nat) (reb : Nat → Bool) :
    List MonServer → Nat → Nat → Option (List ProcEntry × Nat × Nat)
  | [], count, k => some ([], count, k)
  | s :: ss, count, k =>
    match usage_neo s.traffic with
    | none => none
    | some u =>
      if threshold ≤ u then
        if should_rebuild_more_servers max_servers count then
          match process_servers threshold max_servers reb ss
              (if reb k then count + 1 else count) (k + 1) with
          | none => none
          | some (es, c', k') => some (.rebuilt s.name (reb k) :: es, c', k')
        else
          match process_servers threshold max_servers reb ss count k with
          | none => none
          | some (es, c', k') => some (.cappedSkip s.name :: es, c', k')
      else
        match process_servers threshold max_servers reb ss count k with
        | none => none
        | some (es, c', k') => some (es, c', k')

/-! ## Downstream-client IP reconciliation (`DownloaderAPI`, hetzner-monit-neo.py 101-277)

A downloader record is a JSON object; the reconciler reads its `alias` and
`clientUrl` keys and leaves everything else untouched (`rest`).
`extract_ip_from_url` implements the regex search `(\d+\.\d+\.\d+\.\d+)`
(leftmost match, each `\d+` greedy — for this pattern maximal-munch scanning
coincides with backtracking semantics).  Python dicts keyed by alias are
modelled as association lists with Python's insertion-order update semantics
(`dict_insert`); dict lookup/`get` is `dict_get`.  The POST of an update is
modelled by the oracle `postOk alias new_ip`. -/

/-- One downloader record: the `alias` key (`alias_name`), the `clientUrl`
key, and the remaining key/value pairs the reconciler never touches. -/
structure Downloader where
  alias_name : String
  clientUrl : String
  rest : List (String × String)
deriving DecidableEq

/-- Maximal run of decimal digits at the head of the character list. -/
def digit_run : List Char → List Char × List Char
  | [] => ([], [])
  | c :: cs =>
    if c.isDigit then
      let (d, r) := digit_run cs
      (c :: d, r)
    else ([], c :: cs)

/-- Match `\d+\.\d+\.\d+\.\d+` at the start of the list (greedy). -/
def match_ip_at (l : List Char) : Option (List Char) :=
  let (d1, r1) := digit_run l
  if d1 = [] then none else
  match r1 with
  | '.' :: r1' =>
    let (d2, r2) := digit_run r1'
    if d2 = [] then none else
    match r2 with
    | '.' :: r2' =>
      let (d3, r3) := digit_run r2'
      if d3 = [] then none else
      match r3 with
      | '.' :: r3' =>
        let (d4, _) := digit_run r3'
        if d4 = [] then none else
        some (d1 ++ '.' :: (d2 ++ '.' :: (d3 ++ '.' :: d4)))
      | _ => none
    | _ => none
  | _ => none

/-- Leftmost match of the IP pattern (`re.search` semantics). -/
def search_ip : List Char → Option (List Char)
  | [] => none
  | c :: cs =>
    match match_ip_at (c :: cs) with
    | some m => some m
    | none => search_ip cs

/-- `DownloaderAPI.extract_ip_from_url` (hetzner-monit-neo.py 139-143). -/
def extract_ip_from_url (url : String) : Option String :=
  (search_ip url.data).map fun l => ⟨l⟩

/-- `DownloaderAPI.update_downloader_ip` (hetzner-monit-neo.py 145-179):
returns `false` without a request when the record has no `clientUrl` or no
extractable IP; otherwise replaces every occurrence of the old IP in the URL
(Python `str.replace`), writes only the `clientUrl` key, and POSTs the
record (`postOk` = success of the POST).  The second component is the record
as posted. -/
def update_downloader_ip (postOk : Bool) (d : Downloader) (new_ip : String) :
    Bool × Downloader :=
  if d.clientUrl = "" then (false, d)
  else
    match extract_ip_from_url d.clientUrl with
    | none => (false, d)
    | some old_ip => (postOk, { d with clientUrl := d.clientUrl.replace old_ip new_ip })

/-- Python dict assignment `m[k] = v`: update in place if the key exists
(keeping its insertion position), else append. -/
def dict_insert (k v : String) : List (String × String) → List (String × String)
  | [] => [(k, v)]
  | (k', v') :: rest => if k' = k then (k, v) :: rest else (k', v') :: dict_insert k v rest

/-- Python dict lookup `m.get(k)`. -/
def dict_get : List (String × String) → String → Option String
  | [], _ => none
  | (k', v) :: rest, k => if k' = k then some v else dict_get rest k

/-- The `current_ips` dict built by the first loop of
`sync_downloaders_with_servers` (lines 198-205), accumulator form. -/
def build_current_ips_from (m : List (String × String)) :
    List Downloader → List (String × String)
  | [] => m
  | d :: ds =>
    match extract_ip_from_url d.clientUrl with
    | some ip => build_current_ips_from (dict_insert d.alias_name ip m) ds
    | none => build_current_ips_from m ds

/-- The `current_ips` dict (alias ↦ extracted IP, insertion order). -/
def build_current_ips (ds : List Downloader) : List (String × String) :=
  build_current_ips_from [] ds

/-- The multiset counted by `ip_counter` (one occurrence per downloader with
an extractable IP). -/
def extracted_ips (ds : List Downloader) : List String :=
  ds.filterMap fun d => extract_ip_from_url d.clientUrl

/-- Membership in `duplicate_ips = {ip for ip, count in ip_counter.items() if count > 1}`. -/
def is_duplicate_ip (ds : List Downloader) (ip : String) : Bool :=
  decide (1 < (extracted_ips ds).count ip)

/-- First pass (lines 214-219): keep live, non-conflicted current IPs and
remove each from the available pool (`list.remove` = first occurrence, no-op
when absent, matching the guarded `remove`). -/
def preserve_pass (server_ips : List String) (isDup : String → Bool) :
    List (String × String) → List (String × String) → List String →
    List (String × String) × List String
  | [], asg, avail => (asg, avail)
  | (a, ip) :: items, asg, avail =>
    if server_ips.contains ip && !isDup ip then
      preserve_pass server_ips isDup items (dict_insert a ip asg) (avail.erase ip)
    else
      preserve_pass server_ips isDup items asg avail

/-- Second pass (lines 221-244): every downloader not yet in `assignment`
pops the pool head, or falls back to round-robin
`server_ips[len(assignment) % len(server_ips)]` when the pool is empty. -/
def assign_pass (server_ips : List String) :
    List Downloader → List (String × String) → List String → List (String × String)
  | [], asg, _ => asg
  | d :: ds, asg, avail =>
    if (dict_get asg d.alias_name).isSome then assign_pass server_ips ds asg avail
    else
      match avail with
      | t :: restPool => assign_pass server_ips ds (dict_insert d.alias_name t asg) restPool
      | [] =>
        assign_pass server_ips ds
          (dict_insert d.alias_name (server_ips.getD (asg.length % server_ips.length) "") asg) []

/-- Result counters of `sync_downloaders_with_servers`. -/
structure SyncResult where
  updated : Nat
  kept : Nat
  failed : Nat
deriving DecidableEq

/-- Third pass (lines 250-265): count kept/updated/failed records.  The
Python falsy test `if not target_ip` covers both a missing and an empty
target. -/
def count_pass (postOk : String → String → Bool)
    (current_ips asg : List (String × String)) :
    List Downloader → SyncResult → SyncResult
  | [], r => r
  | d :: ds, r =>
    match dict_get asg d.alias_name with
    | none => count_pass postOk current_ips asg ds { r with failed := r.failed + 1 }
    | some t =>
      if t = "" then count_pass postOk current_ips asg ds { r with failed := r.failed + 1 }
      else if dict_get current_ips d.alias_name = some t then
        count_pass postOk current_ips asg ds { r with kept := r.kept + 1 }
      else if (update_downloader_ip (postOk d.alias_name t) d t).1 then
        count_pass postOk current_ips asg ds { r with updated := r.updated + 1 }
      else count_pass postOk current_ips asg ds { r with failed := r.failed + 1 }

/-- The assignment after the preserve pass, started from the empty dict and
the full pool `available_ips = server_ips.copy()`. -/
def preserve_result (server_ips : List String) (ds : List Downloader) :
    List (String × String) × List String :=
  preserve_pass server_ips (is_duplicate_ip ds) (build_current_ips ds) [] server_ips

/-- The assignment after both passes. -/
def final_assignment (server_ips : List String) (ds : List Downloader) :
    List (String × String) :=
  assign_pass server_ips ds (preserve_result server_ips ds).1 (preserve_result server_ips ds).2

/-- `DownloaderAPI.sync_downloaders_with_servers` (hetzner-monit-neo.py
181-277); `ds` is the fetched downloader list (the result of
`get_hetzner_downloaders`). -/
def sync_downloaders_with_servers (postOk : String → String → Bool)
    (server_ips : List String) (ds : List Downloader) : SyncResult :=
  if server_ips.isEmpty then ⟨0, 0, 0⟩
  else if ds.isEmpty then ⟨0, 0, 0⟩
  else count_pass postOk (build_current_ips ds) (final_assignment server_ips ds) ds ⟨0, 0, 0⟩

/-- The entries the `current_ips` loop appends for `ds`, in order. -/
def current_entries (ds : List Downloader) : List (String × String) :=
  ds.filterMap fun d => (extract_ip_from_url d.clientUrl).map fun ip => (d.alias_name, ip)

/-- Whether the count pass would record `d` as failed because its update call
itself failed (branch of lines 262-265); false on the unreachable
no-target branch. -/
def update_failed (postOk : String → String → Bool)
    (current_ips asg : List (String × String)) (d : Downloader) : Bool :=
  match dict_get asg d.alias_name with
  | none => false
  | some t =>
    if t = "" then false
    else if dict_get current_ips d.alias_name = some t then false
    else !(update_downloader_ip (postOk d.alias_name t) d t).1

/-- Concrete records used by the reconciler witnesses: two downloaders that
share the configured address `1.1.1.1` (a conflict). -/
def c1_records : List Downloader :=
  [⟨"HetznerA", "http://1.1.1.1:8080", []⟩, ⟨"HetznerB", "http://1.1.1.1:9090", []⟩]

/-- Records of a second run that carry the first run's assignments for
`c1_records`: `HetznerA ↦ 1.1.1.1`, `HetznerB ↦ 2.2.2.2`. -/
def c7_records : List Downloader :=
  [⟨"HetznerA", "http://1.1.1.1:8080", []⟩, ⟨"HetznerB", "http://2.2.2.2:9090", []⟩]

/-! ## Theorems -/

theorem crosses_midnight_iff (w : TimeWindowManager) (hm : w.end_minute < 60) :
    crosses_midnight w = true ↔ end_min w < start_min w := by
  simp only [crosses_midnight, start_min, end_min, decide_eq_true_eq]
  omega

/-- C4: the window membership test is an inclusive interval test, wrapping
through midnight exactly when `start_time > end_time`; both endpoints are
included, `[08:00,23:30]` contains `08:00` and `23:30`, and the wrapping
window `[22:00,08:50]` contains `23:59` and `00:01` but not `09:00`. -/
theorem C4_window_membership (w : TimeWindowManager) (now : Nat)
    (hm : w.end_minute < 60) :
    (is_in_work_window w now = true ↔
      (if start_min w ≤ end_min w
       then start_min w ≤ now ∧ now ≤ end_min w
       else start_min w ≤ now ∨ now ≤ end_min w))
    ∧ is_in_work_window ⟨8, 23, 30⟩ (8 * 60) = true
    ∧ is_in_work_window ⟨8, 23, 30⟩ (23 * 60 + 30) = true
    ∧ is_in_work_window ⟨22, 8, 50⟩ (23 * 60 + 59) = true
    ∧ is_in_work_window ⟨22, 8, 50⟩ 1 = true
    ∧ is_in_work_window ⟨22, 8, 50⟩ (9 * 60) = false := by
  refine ⟨?_, by decide, by decide, by decide, by decide, by decide⟩
  by_cases hc : crosses_midnight w = true
  · have hlt : end_min w < start_min w := (crosses_midnight_iff w hm).mp hc
    rw [is_in_work_window, if_pos hc, if_neg (by omega)]
    simp
  · have hc' : crosses_midnight w = false := by
      revert hc; cases crosses_midnight w <;> simp
    have hle : start_min w ≤ end_min w := by
      by_contra h
      exact absurd ((crosses_midnight_iff w hm).mpr (by omega)) (by simp [hc'])
    rw [is_in_work_window, hc', if_neg (by simp), if_pos hle]
    simp

/-- Witness for C4 at the concrete window `[08:00,23:30]` and time `12:00`. -/
theorem C4_window_membership_witness :
    is_in_work_window ⟨8, 23, 30⟩ (8 * 60) = true :=
  (C4_window_membership ⟨8, 23, 30⟩ (12 * 60) (by decide)).2.1

/-- C3 counterexample: with the non-wrapping window `[08:00,23:30]`, the time
`06:00` is outside the window and `servers_deleted` is false, yet
`should_delete_servers` returns `false` — the claim demanded TEARDOWN for
every out-of-window time. -/
theorem C3_counterexample :
    is_in_work_window ⟨8, 23, 30⟩ (6 * 60) = false ∧
    should_delete_servers ⟨8, 23, 30⟩ false (6 * 60) = false := by decide

/-- C3 (amended): out of the window with the teardown flag clear, a wrapping
configuration always signals teardown, while a non-wrapping configuration
signals teardown exactly for times strictly after the window end (times
before the window start do not). -/
theorem C3_teardown_out_of_window (w : TimeWindowManager) (now : Nat)
    (hout : is_in_work_window w now = false) :
    (crosses_midnight w = true → should_delete_servers w false now = true)
    ∧ (crosses_midnight w = false →
        should_delete_servers w false now = decide (end_min w < now)) := by
  constructor
  · intro hc
    rw [is_in_work_window, if_pos hc] at hout
    rw [should_delete_servers, if_neg (by simp), if_pos hc]
    simp only [Bool.or_eq_false_iff, decide_eq_false_iff_not, not_le] at hout
    simp only [Bool.and_eq_true, decide_eq_true_eq]
    omega
  · intro hc
    rw [should_delete_servers, if_neg (by simp), hc]
    simp

/-- Witness for C3 (amended): the wrapping window `[22:00,08:50]` at `09:00`
with the teardown flag clear signals teardown. -/
theorem C3_teardown_witness :
    should_delete_servers ⟨22, 8, 50⟩ false (9 * 60) = true :=
  (C3_teardown_out_of_window ⟨22, 8, 50⟩ (9 * 60) (by decide)).1 (by decide)

/-- C5 counterexample: a record whose quota field is present with value 0
makes the usage computation of hetzner-monit-neo.py / hetzner.py raise
(`none`), instead of the claimed ratio 0; the legacy variant returns 0. -/
theorem C5_counterexample :
    usage_neo ⟨some 5, some 0⟩ = none ∧
    usage_legacy ⟨some 5, some 0⟩ = some 0 := by
  constructor
  · rfl
  · simp [usage_legacy]

/-- C5 (amended): the neo/hetzner.py usage computation raises exactly when the
quota field is present with value 0; otherwise it returns
`sent / max(quota, 1)` (the default 1 applies only to an absent field);
the legacy variant never raises and returns 0 for a zero quota. -/
theorem C5_usage_behaviour (s : TrafficCounters) :
    (usage_neo s = none ↔ s.included_traffic = some 0)
    ∧ (s.included_traffic ≠ some 0 →
        usage_neo s =
          some ((s.outgoing_traffic.getD 0 : ℚ) / (max (s.included_traffic.getD 1) 1 : Nat)))
    ∧ (∃ q, usage_legacy s = some q) := by
  refine ⟨?_, ?_, ?_⟩
  · cases hs : s.included_traffic with
    | none => simp [usage_neo, hs]
    | some n =>
      cases n with
      | zero => simp [usage_neo, hs]
      | succ k => simp [usage_neo, hs]
  · intro h
    cases hs : s.included_traffic with
    | none => simp [usage_neo, hs]
    | some n =>
      cases n with
      | zero => exact absurd hs h
      | succ k => simp [usage_neo, hs, Nat.max_eq_left (Nat.succ_le_succ (Nat.zero_le k))]
  · exact ⟨_, rfl⟩

/-- Witness for C5 (amended) at a record with 90 GB sent of a 100 GB quota. -/
theorem C5_usage_behaviour_witness :
    usage_neo ⟨some 90, some 100⟩ = some ((90 : ℚ) / (max 100 1 : Nat)) :=
  (C5_usage_behaviour ⟨some 90, some 100⟩).2.1 (by simp)

/-- C2 counterexample: with priority `[116,110]`, a single "address still
assigned" failure on class 116 followed by success does NOT yield class 116:
`create_server_with_types` breaks on every provider error and the server is
created with the next class 110 (`cpx22`), not 116 (`cx43`). -/
theorem C2_counterexample :
    (create_server_with_types c2_scenario_resps [116, 110] 0).1 =
      some ⟨2, "cpx22", "1.2.3.4"⟩
    ∧ "cpx22" ≠ "cx43" := by
  constructor
  · rfl
  · decide

/-- C2 (amended): in `create_server_with_types` every provider error response
— including "address still assigned" — abandons the class at once and
advances to the next class in priority order, while a transport exception
retries the same class after a fixed backoff (within the 3-attempt ceiling);
the backoff-and-retry treatment of "address still assigned" exists only in
`create_server_from_snapshot`, which uses the single fixed class 110 and no
priority list, and there a single such failure followed by success does
succeed on the retry. -/
theorem C2_error_handling :
    (∀ (resps : Nat → Nat → CreateResp) (t : Nat) (ts : List Nat) (k : Nat) (msg : String),
      resps k t = .errJson msg →
      create_server_with_types resps (t :: ts) k = create_server_with_types resps ts (k + 1))
    ∧ (∀ (resps : Nat → Nat → CreateResp) (t fuel k : Nat),
        resps k t = .exn →
        create_attempts resps t (fuel + 1) k = create_attempts resps t fuel (k + 1))
    ∧ (∀ (resps : Nat → SnapResp) (fuel k : Nat),
        resps k = .ipAssigned422 →
        snapshot_attempts resps (fuel + 1) k = snapshot_attempts resps fuel (k + 1))
    ∧ create_server_from_snapshot (fun _ => true)
        (fun k => if k = 0 then .ipAssigned422 else .created 7) = some 7 := by
  refine ⟨?_, ?_, ?_, rfl⟩
  · intro resps t ts k msg h
    simp [create_server_with_types, create_attempts, h]
  · intro resps t fuel k h
    simp [create_attempts, h]
  · intro resps fuel k h
    simp [snapshot_attempts, h]

/-- Witness for C2 (amended): a concrete provider-error response on class 116
advances directly to class 110. -/
theorem C2_error_handling_witness :
    create_server_with_types c2_scenario_resps [116, 110] 0 =
      create_server_with_types c2_scenario_resps [110] 1 :=
  C2_error_handling.1 c2_scenario_resps 116 [110] 0 "primary_ip_assigned" rfl

theorem deletion_polls_congr (p p' : Nat → Bool) (i fuel : Nat)
    (h : ∀ j, j < i + fuel → p j = p' j) (hi : ∀ j, j < i → True) :
    deletion_polls p i fuel = deletion_polls p' i fuel := by
  induction fuel generalizing i with
  | zero => rfl
  | succ n ih =>
    simp only [deletion_polls, h i (by omega)]
    by_cases hp : p' i = true
    · simp [hp]
    · have hp' : p' i = false := by revert hp; cases p' i <;> simp
      simp only [hp', Bool.false_eq_true, if_false]
      exact ih (i + 1) (fun j hj => h j (by omega)) (fun j _ => trivial)

theorem deletion_polls_true_iff (p : Nat → Bool) (i fuel : Nat) :
    deletion_polls p i fuel = true ↔ ∃ j, j < fuel ∧ p (i + j) = true := by
  induction fuel generalizing i with
  | zero => simp [deletion_polls]
  | succ n ih =>
    simp only [deletion_polls]
    by_cases hp : p i = true
    · simp only [hp, if_true, true_iff]
      exact ⟨0, by omega, by simpa using hp⟩
    · have hp' : p i = false := by revert hp; cases p i <;> simp
      rw [hp', if_neg (by simp), ih (i + 1)]
      constructor
      · rintro ⟨j, hj, hpj⟩
        exact ⟨j + 1, by omega, by rw [show i + (j + 1) = i + 1 + j by omega]; exact hpj⟩
      · rintro ⟨j, hj, hpj⟩
        cases j with
        | zero => rw [Nat.add_zero] at hpj; rw [hpj] at hp'; cases hp'
        | succ m => exact ⟨m, by omega, by rw [show i + 1 + m = i + (m + 1) by omega]; exact hpj⟩

/-- C6: deletion confirmation polls instance existence at most 24 times (the
result depends only on the first 24 polls, and succeeds exactly when one of
them observes absence), and when absence is not confirmed, `rebuild_server`
returns the "删除失败" (delete failed) outcome without making any create
call. -/
theorem C6_bounded_delete_confirmation :
    (∀ (dOk : Bool) (p p' : Nat → Bool), (∀ i, i < 24 → p i = p' i) →
      delete_server dOk p = delete_server dOk p')
    ∧ (∀ p : Nat → Bool, delete_server true p = true ↔ ∃ i, i < 24 ∧ p i = true)
    ∧ (∀ (dOk : Bool) (p : Nat → Bool) (resps : Nat → Nat → CreateResp)
        (ts : List Nat) (s : SrvDesc) (snap : Nat),
        s.snapshot_id = some snap → delete_server dOk p = false →
        rebuild_server dOk p resps ts s =
          (⟨s.name, false, some "删除失败", none, none, none⟩, false)) := by
  refine ⟨?_, ?_, ?_⟩
  · intro dOk p p' h
    cases dOk with
    | false => rfl
    | true =>
      simp only [delete_server, if_true]
      exact deletion_polls_congr p p' 0 24 (fun j hj => h j (by omega)) (fun _ _ => trivial)
  · intro p
    simp only [delete_server, if_true, deletion_polls_true_iff]
    constructor
    · rintro ⟨j, hj, hpj⟩; exact ⟨j, hj, by simpa using hpj⟩
    · rintro ⟨j, hj, hpj⟩; exact ⟨j, hj, by simpa using hpj⟩
  · intro dOk p resps ts s snap hs hdel
    rw [rebuild_server, hs]
    simp [hdel]

/-- Witness for C6: a server whose deletion is never confirmed yields the
delete-failed outcome and no create call. -/
theorem C6_bounded_delete_confirmation_witness :
    rebuild_server true (fun _ => false) c2_scenario_resps [116, 110]
        ⟨"web-1", some "1.2.3.4", some 55⟩ =
      (⟨"web-1", false, some "删除失败", none, none, none⟩, false) :=
  C6_bounded_delete_confirmation.2.2 true (fun _ => false) c2_scenario_resps
    [116, 110] ⟨"web-1", some "1.2.3.4", some 55⟩ 55 rfl (by decide)

/-- C8 counterexample: with cap 1 and two over-threshold servers where the
first rebuild fails, the code performs two rebuild calls — more than the cap.
`rebuilt_count` counts only successes, so a failed rebuild does not consume
the cap.  (Threshold 4/5; both servers at 90/100 usage; the third component
of the result is the number of rebuild calls performed.) -/
theorem C8_counterexample :
    process_servers (4 / 5) 1 (fun k => decide (k ≠ 0))
        [⟨"s1", some 90, some 100⟩, ⟨"s2", some 90, some 100⟩] 0 0 =
      some ([.rebuilt "s1" false, .rebuilt "s2" true], 1, 2)
    ∧ 1 < 2 := by
  have husage : usage_neo ⟨some 90, some 100⟩ = some ((90 : ℚ) / 100) := by
    simp [usage_neo]
  have hle : (4 : ℚ) / 5 ≤ 90 / 100 := by norm_num
  refine ⟨?_, by norm_num⟩
  simp [process_servers, husage, hle, should_rebuild_more_servers]

theorem success_count_cons_rebuilt (n : String) (b : Bool) (es : List ProcEntry) :
    success_count (.rebuilt n b :: es) =
      if b then success_count es + 1 else success_count es := by
  cases b <;> rfl

theorem success_count_cons_capped (n : String) (es : List ProcEntry) :
    success_count (.cappedSkip n :: es) = success_count es := rfl

theorem process_servers_invariant (threshold : ℚ) (max_servers : Nat) (reb : Nat → Bool)
    (hmax : 0 < max_servers) :
    ∀ (ss : List MonServer) (count k : Nat) (es : List ProcEntry) (c' k' : Nat),
      process_servers threshold max_servers reb ss count k = some (es, c', k') →
      c' = count + success_count es
      ∧ es.length = (ss.filter (over_threshold threshold)).length
      ∧ (count ≤ max_servers → c' ≤ max_servers)
      ∧ (∀ i (hi : i < es.length),
          max_servers ≤ count + success_count (es.take i) →
          (es.get ⟨i, hi⟩).isCappedSkip = true) := by
  intro ss
  induction ss with
  | nil =>
    intro count k es c' k' h
    simp only [process_servers, Option.some.injEq, Prod.mk.injEq] at h
    obtain ⟨h1, h2, h3⟩ := h
    subst h1 h2 h3
    exact ⟨rfl, rfl, fun h => h, fun i hi => absurd hi (by simp)⟩
  | cons s ss ih =>
    intro count k es c' k' h
    rw [process_servers] at h
    cases hu : usage_neo s.traffic with
    | none => simp [hu] at h
    | some u =>
      simp only [hu] at h
      have hover : over_threshold threshold s = decide (threshold ≤ u) := by
        simp [over_threshold, hu]
      by_cases hth : threshold ≤ u
      · rw [if_pos hth] at h
        by_cases hsh : should_rebuild_more_servers max_servers count = true
        · rw [if_pos hsh] at h
          have hcount : count < max_servers := by
            by_contra hcm
            rw [should_rebuild_more_servers, if_neg (by omega)] at hsh
            simp only [decide_eq_true_eq] at hsh
            omega
          cases hrec : process_servers threshold max_servers reb ss
              (if reb k then count + 1 else count) (k + 1) with
          | none => rw [hrec] at h; cases h
          | some res =>
            obtain ⟨es₀, c₀, k₀⟩ := res
            rw [hrec] at h
            simp only [Option.some.injEq, Prod.mk.injEq] at h
            obtain ⟨hes, hc, hk⟩ := h
            subst hes hc hk
            obtain ⟨i1, i2, i3, i4⟩ := ih _ _ _ _ _ hrec
            refine ⟨?_, ?_, ?_, ?_⟩
            · rw [success_count_cons_rebuilt]
              cases hr : reb k <;> simp [hr] at i1 ⊢ <;> omega
            · simp [hover, decide_eq_true_eq, hth, i2]
            · intro _
              apply i3
              cases hr : reb k <;> simp <;> omega
            · intro i hi hcond
              cases i with
              | zero =>
                simp only [List.take_zero, success_count] at hcond
                omega
              | succ j =>
                simp only [List.take_succ_cons, success_count_cons_rebuilt] at hcond
                simp only [List.get_cons_succ]
                apply i4
                cases hr : reb k <;> rw [hr] at hcond <;> simp at hcond ⊢ <;> omega
        · rw [if_neg hsh] at h
          have hcap : max_servers ≤ count := by
            by_contra hcm
            exact hsh (by rw [should_rebuild_more_servers, if_neg (by omega)]; simpa using by omega)
          cases hrec : process_servers threshold max_servers reb ss count k with
          | none => rw [hrec] at h; cases h
          | some res =>
            obtain ⟨es₀, c₀, k₀⟩ := res
            rw [hrec] at h
            simp only [Option.some.injEq, Prod.mk.injEq] at h
            obtain ⟨hes, hc, hk⟩ := h
            subst hes hc hk
            obtain ⟨i1, i2, i3, i4⟩ := ih _ _ _ _ _ hrec
            refine ⟨?_, ?_, ?_, ?_⟩
            · rw [success_count_cons_capped]; exact i1
            · simp [hover, decide_eq_true_eq, hth, i2]
            · exact i3
            · intro i hi hcond
              cases i with
              | zero => rfl
              | succ j =>
                simp only [List.take_succ_cons, success_count_cons_capped] at hcond
                simp only [List.get_cons_succ]
                exact i4 j _ hcond
      · rw [if_neg hth] at h
        cases hrec : process_servers threshold max_servers reb ss count k with
        | none => rw [hrec] at h; cases h
        | some res =>
          obtain ⟨es₀, c₀, k₀⟩ := res
          rw [hrec] at h
          simp only [Option.some.injEq, Prod.mk.injEq] at h
          obtain ⟨hes, hc, hk⟩ := h
          subst hes hc hk
          obtain ⟨i1, i2, i3, i4⟩ := ih _ _ _ _ _ hrec
          refine ⟨i1, ?_, i3, i4⟩
          simp [hover, decide_eq_true_eq, hth, i2]

/-- C8 (amended): in a cycle with a positive fleet-size cap, the number of
SUCCESSFUL rebuilds never exceeds the cap (`rebuilt_count` counts only
successes, so failed rebuild calls do not consume the cap and the number of
rebuild calls may exceed it); each over-threshold server contributes exactly
one outcome entry (none is retried within the cycle); and every over-threshold
server encountered after the success count has reached the cap is recorded as
the capped-skip failure. -/
theorem C8_cap_on_rebuilds (threshold : ℚ) (max_servers : Nat) (reb : Nat → Bool)
    (servers : List MonServer) (es : List ProcEntry) (c' k' : Nat)
    (hmax : 0 < max_servers)
    (h : process_servers threshold max_servers reb servers 0 0 = some (es, c', k')) :
    success_count es ≤ max_servers
    ∧ es.length = (servers.filter (over_threshold threshold)).length
    ∧ (∀ i (hi : i < es.length),
        max_servers ≤ success_count (es.take i) →
        (es.get ⟨i, hi⟩).isCappedSkip = true) := by
  obtain ⟨h1, h2, h3, h4⟩ :=
    process_servers_invariant threshold max_servers reb hmax servers 0 0 es c' k' h
  refine ⟨?_, h2, fun i hi hcond => h4 i hi (by simpa using hcond)⟩
  have := h3 (Nat.zero_le _)
  omega

/-- Witness for C8 (amended) at the two-server scenario with cap 1. -/
theorem C8_cap_on_rebuilds_witness :
    success_count [.rebuilt "s1" false, .rebuilt "s2" true] ≤ 1 := by
  have husage : usage_neo ⟨some 90, some 100⟩ = some ((90 : ℚ) / 100) := by
    simp [usage_neo]
  have hle : (4 : ℚ) / 5 ≤ 90 / 100 := by norm_num
  have h : process_servers (4 / 5) 1 (fun k => decide (k ≠ 0))
      [⟨"s1", some 90, some 100⟩, ⟨"s2", some 90, some 100⟩] 0 0 =
      some ([.rebuilt "s1" false, .rebuilt "s2" true], 1, 2) := by
    simp [process_servers, husage, hle, should_rebuild_more_servers]
  exact (C8_cap_on_rebuilds (4 / 5) 1 (fun k => decide (k ≠ 0))
    [⟨"s1", some 90, some 100⟩, ⟨"s2", some 90, some 100⟩]
    [.rebuilt "s1" false, .rebuilt "s2" true] 1 2 (by decide) h).1

example : extract_ip_from_url "http://192.168.1.77:8080/x" = some "192.168.1.77" := by decide

example : extract_ip_from_url "http://host/x" = none := by decide

example :
    sync_downloaders_with_servers (fun _ _ => true) ["1.1.1.1", "2.2.2.2"]
      [⟨"HetznerA", "http://1.1.1.1:8080", []⟩, ⟨"HetznerB", "http://2.2.2.2:8080", []⟩] =
    ⟨0, 2, 0⟩ := by decide

/-- C9: when the reconciler rewrites a client record, only the `clientUrl`
field changes — the alias and all remaining fields of the record posted back
equal the fetched values (and on the no-URL / no-IP early returns the record
is untouched entirely). -/
theorem C9_update_rewrites_only_url (postOk : Bool) (d : Downloader) (new_ip : String) :
    ((update_downloader_ip postOk d new_ip).2).alias_name = d.alias_name
    ∧ ((update_downloader_ip postOk d new_ip).2).rest = d.rest := by
  rw [update_downloader_ip]
  by_cases h : d.clientUrl = ""
  · simp [h]
  · rw [if_neg h]
    cases hext : extract_ip_from_url d.clientUrl <;> simp

/-! ### Helper lemmas about the IP scanner and the dict model -/

theorem match_ip_at_ne_nil (l m : List Char) (h : match_ip_at l = some m) : m ≠ [] := by
  rw [match_ip_at] at h
  iterate 14 (all_goals try split at h)
  all_goals first
    | exact Option.noConfusion h
    | (simp only [Option.some.injEq] at h; subst h; simp)

theorem search_ip_ne_nil (l m : List Char) (h : search_ip l = some m) : m ≠ [] := by
  induction l with
  | nil => cases h
  | cons c cs ih =>
    rw [search_ip] at h
    cases hm : match_ip_at (c :: cs) with
    | some m' =>
      rw [hm] at h
      simp only [Option.some.injEq] at h
      subst h
      exact match_ip_at_ne_nil _ _ hm
    | none => rw [hm] at h; exact ih h

theorem extract_ip_ne_empty (url s : String) (h : extract_ip_from_url url = some s) :
    s ≠ "" := by
  rw [extract_ip_from_url] at h
  cases hs : search_ip url.data with
  | none => rw [hs] at h; cases h
  | some m =>
    rw [hs] at h
    simp only [Option.map_some', Option.some.injEq] at h
    subst h
    intro hcon
    exact search_ip_ne_nil _ _ hs (by simpa [String.ext_iff] using hcon)

theorem dict_get_insert_self (k v : String) (m : List (String × String)) :
    dict_get (dict_insert k v m) k = some v := by
  induction m with
  | nil => simp [dict_insert, dict_get]
  | cons p rest ih =>
    obtain ⟨k', v'⟩ := p
    rw [dict_insert]
    by_cases h : k' = k
    · simp [h, dict_get]
    · rw [if_neg h, dict_get, if_neg h]
      exact ih

theorem dict_get_insert_ne (k v a : String) (m : List (String × String)) (h : a ≠ k) :
    dict_get (dict_insert k v m) a = dict_get m a := by
  induction m with
  | nil =>
    simp only [dict_insert, dict_get]
    rw [if_neg (fun hk => h hk.symm)]
  | cons p rest ih =>
    obtain ⟨k', v'⟩ := p
    rw [dict_insert]
    by_cases hk : k' = k
    · subst hk
      simp only [dict_get]
      rw [if_neg (fun hk => h hk.symm), if_neg (fun hk => h hk.symm)]
    · rw [if_neg hk]
      simp only [dict_get]
      by_cases ha : k' = a
      · simp [ha]
      · rw [if_neg ha, if_neg ha]
        exact ih

theorem dict_get_mem (m : List (String × String)) (k v : String)
    (h : dict_get m k = some v) : (k, v) ∈ m := by
  induction m with
  | nil => cases h
  | cons p rest ih =>
    obtain ⟨k', v'⟩ := p
    rw [dict_get] at h
    by_cases hk : k' = k
    · rw [if_pos hk] at h
      simp only [Option.some.injEq] at h
      subst hk h
      exact List.mem_cons_self _ _
    · rw [if_neg hk] at h
      exact List.mem_cons_of_mem _ (ih h)

theorem dict_get_eq_none_iff (m : List (String × String)) (k : String) :
    dict_get m k = none ↔ k ∉ m.map Prod.fst := by
  induction m with
  | nil => simp [dict_get]
  | cons p rest ih =>
    obtain ⟨k', v'⟩ := p
    rw [dict_get]
    by_cases hk : k' = k
    · simp [hk]
    · rw [if_neg hk, ih]
      simp only [List.map_cons, List.mem_cons, not_or]
      constructor
      · intro hm
        exact ⟨fun hkk => hk hkk.symm, hm⟩
      · intro hm
        exact hm.2

theorem dict_get_isSome_iff (m : List (String × String)) (k : String) :
    (dict_get m k).isSome = true ↔ k ∈ m.map Prod.fst := by
  rw [← Decidable.not_iff_not, ← dict_get_eq_none_iff]
  cases dict_get m k <;> simp

theorem mem_dict_insert (k v : String) (m : List (String × String)) (p : String × String)
    (h : p ∈ dict_insert k v m) : p = (k, v) ∨ p ∈ m := by
  induction m with
  | nil => simpa [dict_insert] using h
  | cons q rest ih =>
    obtain ⟨k', v'⟩ := q
    rw [dict_insert] at h
    by_cases hk : k' = k
    · rw [if_pos hk] at h
      rcases List.mem_cons.mp h with h | h
      · exact Or.inl h
      · exact Or.inr (List.mem_cons_of_mem _ h)
    · rw [if_neg hk] at h
      rcases List.mem_cons.mp h with h | h
      · exact Or.inr (by simp [h])
      · rcases ih h with h | h
        · exact Or.inl h
        · exact Or.inr (List.mem_cons_of_mem _ h)

theorem dict_insert_of_not_mem (k v : String) (m : List (String × String))
    (h : k ∉ m.map Prod.fst) : dict_insert k v m = m ++ [(k, v)] := by
  induction m with
  | nil => rfl
  | cons p rest ih =>
    obtain ⟨k', v'⟩ := p
    simp only [List.map_cons, List.mem_cons, not_or] at h
    rw [dict_insert, if_neg (fun hk => h.1 hk.symm), List.cons_append]
    rw [ih h.2]

theorem dict_get_none_of_insert (k v a : String) (m : List (String × String))
    (h : dict_get (dict_insert k v m) a = none) : dict_get m a = none := by
  by_cases ha : a = k
  · subst ha
    rw [dict_get_insert_self] at h
    cases h
  · rwa [dict_get_insert_ne _ _ _ _ ha] at h

theorem contains_iff_mem_str (l : List String) (a : String) : l.contains a = true ↔ a ∈ l :=
  List.elem_iff

theorem build_current_ips_from_eq (ds : List Downloader) :
    ∀ m : List (String × String),
    (∀ d ∈ ds, d.alias_name ∉ m.map Prod.fst) →
    (ds.map Downloader.alias_name).Nodup →
    build_current_ips_from m ds = m ++ current_entries ds := by
  induction ds with
  | nil =>
    intro m _ _
    simp [build_current_ips_from, current_entries]
  | cons d ds ih =>
    intro m hfresh hnd
    rw [build_current_ips_from]
    simp only [List.map_cons, List.nodup_cons] at hnd
    cases hext : extract_ip_from_url d.clientUrl with
    | none =>
      rw [ih m (fun d' hd' => hfresh d' (List.mem_cons_of_mem _ hd')) hnd.2]
      simp [current_entries, List.filterMap_cons, hext]
    | some ip =>
      show build_current_ips_from (dict_insert d.alias_name ip m) ds =
        m ++ current_entries (d :: ds)
      rw [dict_insert_of_not_mem _ _ _ (hfresh d (List.mem_cons_self _ _))]
      rw [ih (m ++ [(d.alias_name, ip)]) ?_ hnd.2]
      · simp [current_entries, List.filterMap_cons, hext]
      · intro d' hd'
        simp only [List.map_append, List.mem_append, not_or]
        refine ⟨hfresh d' (List.mem_cons_of_mem _ hd'), ?_⟩
        simp only [List.map_cons, List.map_nil, List.mem_singleton]
        intro hcon
        exact hnd.1 (hcon ▸ List.mem_map_of_mem Downloader.alias_name hd')

theorem build_current_ips_eq (ds : List Downloader)
    (hnd : (ds.map Downloader.alias_name).Nodup) :
    build_current_ips ds = current_entries ds := by
  rw [build_current_ips, build_current_ips_from_eq ds [] (by simp) hnd, List.nil_append]

theorem current_entries_keys_sublist (ds : List Downloader) :
    List.Sublist ((current_entries ds).map Prod.fst) (ds.map Downloader.alias_name) := by
  induction ds with
  | nil => simp [current_entries]
  | cons d ds ih =>
    simp only [current_entries, List.filterMap_cons, List.map_cons]
    cases hext : extract_ip_from_url d.clientUrl with
    | none => exact List.Sublist.cons _ ih
    | some ip => exact List.Sublist.cons₂ _ ih

theorem current_entries_values (ds : List Downloader) :
    (current_entries ds).map Prod.snd = extracted_ips ds := by
  induction ds with
  | nil => rfl
  | cons d ds ih =>
    simp only [current_entries, extracted_ips, List.filterMap_cons] at ih ⊢
    cases hext : extract_ip_from_url d.clientUrl <;> simp [hext, ih]

theorem dict_get_current_entries (ds : List Downloader)
    (hnd : (ds.map Downloader.alias_name).Nodup) :
    ∀ d ∈ ds, dict_get (current_entries ds) d.alias_name = extract_ip_from_url d.clientUrl := by
  induction ds with
  | nil => intro d hd; cases hd
  | cons d0 ds ih =>
    intro d hd
    simp only [List.map_cons, List.nodup_cons] at hnd
    rcases List.mem_cons.mp hd with rfl | hd
    · cases hext : extract_ip_from_url d.clientUrl with
      | none =>
        simp only [current_entries, List.filterMap_cons, hext]
        rw [dict_get_eq_none_iff]
        intro hmem
        exact hnd.1 (List.Sublist.subset (current_entries_keys_sublist ds) hmem)
      | some ip =>
        simp only [current_entries, List.filterMap_cons, hext, Option.map_some']
        simp [dict_get]
    · have hne : d0.alias_name ≠ d.alias_name := by
        intro hcon
        exact hnd.1 (hcon ▸ List.mem_map_of_mem Downloader.alias_name hd)
      cases hext : extract_ip_from_url d0.clientUrl with
      | none =>
        simp only [current_entries, List.filterMap_cons, hext]
        exact ih hnd.2 d hd
      | some ip =>
        simp only [current_entries, List.filterMap_cons, hext, Option.map_some']
        rw [dict_get, if_neg hne]
        exact ih hnd.2 d hd

theorem mem_current_entries (ds : List Downloader) (p : String × String) :
    p ∈ current_entries ds ↔
      ∃ d ∈ ds, d.alias_name = p.1 ∧ extract_ip_from_url d.clientUrl = some p.2 := by
  obtain ⟨a, ip⟩ := p
  simp only [current_entries, List.mem_filterMap, Option.map_eq_some']
  constructor
  · rintro ⟨d, hd, ip', hext, hpair⟩
    obtain ⟨ha, hip⟩ := Prod.mk.injEq .. ▸ hpair
    exact ⟨d, hd, by simp_all⟩
  · rintro ⟨d, hd, ha, hext⟩
    exact ⟨d, hd, ip, hext, by simp [ha]⟩

theorem length_filter_mono {α : Type} (p q : α → Bool) (h : ∀ a, p a = true → q a = true) :
    ∀ l : List α, (l.filter p).length ≤ (l.filter q).length := by
  intro l
  induction l with
  | nil => simp
  | cons a l ih =>
    simp only [List.filter_cons]
    cases hp : p a with
    | true => simp [h a hp]; omega
    | false =>
      cases hq : q a with
      | true => simp; omega
      | false => simp; omega

theorem length_filter_contains (l vs : List String) (hl : l.Nodup) (hvs : vs.Nodup)
    (hsub : ∀ v ∈ vs, v ∈ l) :
    (l.filter fun x => vs.contains x).length = vs.length := by
  have hperm : List.Perm (l.filter fun x => vs.contains x) vs := by
    rw [List.perm_iff_count]
    intro a
    by_cases ha : a ∈ vs
    · rw [List.count_eq_one_of_mem hvs ha]
      have hmem : a ∈ l.filter fun x => vs.contains x := by
        rw [List.mem_filter]
        exact ⟨hsub a ha, (contains_iff_mem_str vs a).mpr ha⟩
      exact List.count_eq_one_of_mem (List.Nodup.filter _ hl) hmem
    · rw [List.count_eq_zero_of_not_mem ha, List.count_eq_zero_of_not_mem]
      intro hmem
      rw [List.mem_filter] at hmem
      exact ha ((contains_iff_mem_str vs a).mp hmem.2)
  exact hperm.length_eq

theorem length_filter_not_contains (l vs : List String) (hl : l.Nodup) (hvs : vs.Nodup)
    (hsub : ∀ v ∈ vs, v ∈ l) :
    (l.filter fun x => !(vs.contains x)).length = l.length - vs.length := by
  have hsplit : l.length = (l.filter fun x => vs.contains x).length +
      (l.filter fun x => !(vs.contains x)).length :=
    List.length_eq_length_filter_add _
  rw [length_filter_contains l vs hl hvs hsub] at hsplit
  omega

theorem preserve_pass_mem (sips : List String) (isDup : String → Bool) :
    ∀ (items asg : List (String × String)) (avail : List String),
      ∀ p ∈ (preserve_pass sips isDup items asg avail).1,
        p ∈ asg ∨ (p ∈ items ∧ isDup p.2 = false ∧ p.2 ∈ sips) := by
  intro items
  induction items with
  | nil =>
    intro asg avail p hp
    simp only [preserve_pass] at hp
    exact Or.inl hp
  | cons q items ih =>
    obtain ⟨a, ip⟩ := q
    intro asg avail p hp
    rw [preserve_pass] at hp
    by_cases hc : (sips.contains ip && !isDup ip) = true
    · rw [if_pos hc] at hp
      simp only [Bool.and_eq_true, Bool.not_eq_true'] at hc
      rcases ih _ _ p hp with h | h
      · rcases mem_dict_insert _ _ _ _ h with h | h
        · subst h
          exact Or.inr ⟨List.mem_cons_self _ _, hc.2, (contains_iff_mem_str _ _).mp hc.1⟩
        · exact Or.inl h
      · exact Or.inr ⟨List.mem_cons_of_mem _ h.1, h.2⟩
    · rw [if_neg hc] at hp
      rcases ih _ _ p hp with h | h
      · exact Or.inl h
      · exact Or.inr ⟨List.mem_cons_of_mem _ h.1, h.2⟩

theorem not_mem_keys_of_forall_ne (asg : List (String × String)) (a : String)
    (h : ∀ q ∈ asg, q.1 ≠ a) : a ∉ asg.map Prod.fst := by
  intro hmem
  obtain ⟨q, hq, hqa⟩ := List.mem_map.mp hmem
  exact h q hq hqa

theorem nodup_append_singleton {x : String} {l : List String} (hl : l.Nodup) (hx : x ∉ l) :
    (l ++ [x]).Nodup :=
  ((List.perm_append_singleton x l).nodup_iff).mpr (List.nodup_cons.mpr ⟨hx, hl⟩)

theorem preserve_pass_all (sips : List String) (isDup : String → Bool) :
    ∀ (items asg : List (String × String)) (avail : List String),
      (∀ p ∈ items, p.2 ∈ sips ∧ isDup p.2 = false) →
      (∀ p ∈ items, ∀ q ∈ asg, q.1 ≠ p.1) →
      (items.map Prod.fst).Nodup →
      (preserve_pass sips isDup items asg avail).1 = asg ++ items := by
  intro items
  induction items with
  | nil =>
    intro asg avail _ _ _
    simp [preserve_pass]
  | cons q items ih =>
    obtain ⟨a, ip⟩ := q
    intro asg avail hall hfresh hnd
    simp only [List.map_cons, List.nodup_cons] at hnd
    have h1 := hall (a, ip) (List.mem_cons_self _ _)
    rw [preserve_pass, if_pos (by
      simp only [Bool.and_eq_true, Bool.not_eq_true']
      exact ⟨(contains_iff_mem_str _ _).mpr h1.1, h1.2⟩)]
    rw [dict_insert_of_not_mem _ _ _
      (not_mem_keys_of_forall_ne _ _ (fun q hq => hfresh (a, ip) (List.mem_cons_self _ _) q hq))]
    rw [ih (asg ++ [(a, ip)]) _ (fun p hp => hall p (List.mem_cons_of_mem _ hp)) ?_ hnd.2]
    · simp
    · intro p hp q hq
      rcases List.mem_append.mp hq with hq | hq
      · exact hfresh p (List.mem_cons_of_mem _ hp) q hq
      · rcases List.mem_singleton.mp hq with rfl
        intro hcon
        apply hnd.1
        have ha : a = p.1 := hcon
        rw [ha]
        exact List.mem_map_of_mem Prod.fst hp

theorem preserve_pass_invariant (sips : List String) (isDup : String → Bool)
    (_hsips : sips.Nodup) :
    ∀ (items asg : List (String × String)) (avail : List String),
      (asg.map Prod.fst).Nodup →
      (asg.map Prod.snd).Nodup →
      (∀ p ∈ asg, p.2 ∈ sips) →
      (∀ p ∈ items, ∀ q ∈ asg, q.1 ≠ p.1) →
      (items.map Prod.fst).Nodup →
      (∀ ip, isDup ip = false →
        (asg.map Prod.snd).count ip + (items.map Prod.snd).count ip ≤ 1) →
      avail.Nodup →
      (∀ x ∈ avail, x ∈ sips) →
      (∀ x ∈ avail, x ∉ asg.map Prod.snd) →
      (∀ x ∈ sips, x ∉ asg.map Prod.snd → x ∈ avail) →
      asg.length + avail.length = sips.length →
      (((preserve_pass sips isDup items asg avail).1.map Prod.fst).Nodup
       ∧ ((preserve_pass sips isDup items asg avail).1.map Prod.snd).Nodup
       ∧ (∀ p ∈ (preserve_pass sips isDup items asg avail).1, p.2 ∈ sips)
       ∧ (preserve_pass sips isDup items asg avail).2.Nodup
       ∧ (∀ x ∈ (preserve_pass sips isDup items asg avail).2,
            x ∉ (preserve_pass sips isDup items asg avail).1.map Prod.snd)
       ∧ (preserve_pass sips isDup items asg avail).1.length +
           (preserve_pass sips isDup items asg avail).2.length = sips.length) := by
  intro items
  induction items with
  | nil =>
    intro asg avail hk hv hvs _ _ _ hav havs hdisj _ hlen
    simp only [preserve_pass]
    exact ⟨hk, hv, hvs, hav, hdisj, hlen⟩
  | cons q items ih =>
    obtain ⟨a, ip⟩ := q
    intro asg avail hk hv hvs hfresh hnd hcount hav havs hdisj hsup hlen
    simp only [List.map_cons, List.nodup_cons] at hnd
    rw [preserve_pass]
    by_cases hc : (sips.contains ip && !isDup ip) = true
    · rw [if_pos hc]
      simp only [Bool.and_eq_true, Bool.not_eq_true'] at hc
      have hipsips : ip ∈ sips := (contains_iff_mem_str _ _).mp hc.1
      have hipvals : ip ∉ asg.map Prod.snd := by
        have hcnt := hcount ip hc.2
        have h1 : 1 ≤ ((ip :: items.map Prod.snd).count ip) := by
          simp [List.count_cons]
        simp only [List.map_cons] at hcnt
        intro hmem
        have h2 : 1 ≤ (asg.map Prod.snd).count ip := List.one_le_count_iff.mpr hmem
        omega
      have hafresh : a ∉ asg.map Prod.fst :=
        not_mem_keys_of_forall_ne _ _ (fun q hq => hfresh (a, ip) (List.mem_cons_self _ _) q hq)
      have hins : dict_insert a ip asg = asg ++ [(a, ip)] :=
        dict_insert_of_not_mem _ _ _ hafresh
      have hipavail : ip ∈ avail := hsup ip hipsips hipvals
      rw [hins]
      apply ih (asg ++ [(a, ip)]) (avail.erase ip)
      · simp only [List.map_append, List.map_cons, List.map_nil]
        exact nodup_append_singleton hk hafresh
      · simp only [List.map_append, List.map_cons, List.map_nil]
        exact nodup_append_singleton hv hipvals
      · intro p hp
        rcases List.mem_append.mp hp with hp | hp
        · exact hvs p hp
        · rcases List.mem_singleton.mp hp with rfl
          exact hipsips
      · intro p hp q hq
        rcases List.mem_append.mp hq with hq | hq
        · exact hfresh p (List.mem_cons_of_mem _ hp) q hq
        · rcases List.mem_singleton.mp hq with rfl
          intro hcon
          apply hnd.1
          have ha : a = p.1 := hcon
          rw [ha]
          exact List.mem_map_of_mem Prod.fst hp
      · exact hnd.2
      · intro ip' hip'
        have hcnt := hcount ip' hip'
        simp only [List.map_cons, List.count_cons, List.map_append, List.count_append] at hcnt ⊢
        simp only [List.map_cons, List.map_nil, List.count_cons, List.count_nil] at hcnt ⊢
        omega
      · exact List.Nodup.sublist (List.erase_sublist _ _) hav
      · intro x hx
        exact havs x (List.mem_of_mem_erase hx)
      · intro x hx
        have hxa : x ∈ avail := List.mem_of_mem_erase hx
        have hxip : x ≠ ip := by
          intro hcon
          subst hcon
          exact (List.Nodup.not_mem_erase hav) hx
        simp only [List.map_append, List.mem_append, List.map_cons, List.map_nil,
          List.mem_singleton, not_or]
        exact ⟨hdisj x hxa, hxip⟩
      · intro x hxs hxvals
        simp only [List.map_append, List.mem_append, List.map_cons, List.map_nil,
          List.mem_singleton, not_or] at hxvals
        exact (List.mem_erase_of_ne hxvals.2).mpr (hsup x hxs hxvals.1)
      · have h1 := List.length_erase_of_mem hipavail
        have h2 : 0 < avail.length := List.length_pos_of_mem hipavail
        simp only [List.length_append, List.length_cons, List.length_nil]
        omega
    · rw [if_neg hc]
      apply ih asg avail hk hv hvs
        (fun p hp => hfresh p (List.mem_cons_of_mem _ hp)) hnd.2 ?_ hav havs hdisj hsup hlen
      intro ip' hip'
      have hcnt := hcount ip' hip'
      simp only [List.map_cons, List.count_cons] at hcnt
      omega

theorem assign_pass_cons_assigned (sips : List String) (d : Downloader)
    (ds : List Downloader) (asg : List (String × String)) (avail : List String)
    (hs : (dict_get asg d.alias_name).isSome = true) :
    assign_pass sips (d :: ds) asg avail = assign_pass sips ds asg avail := by
  rw [assign_pass.eq_def]
  simp only [hs, if_true]

theorem assign_pass_cons_pool (sips : List String) (d : Downloader)
    (ds : List Downloader) (asg : List (String × String)) (t : String) (rest : List String)
    (hs : (dict_get asg d.alias_name).isSome = false) :
    assign_pass sips (d :: ds) asg (t :: rest) =
      assign_pass sips ds (dict_insert d.alias_name t asg) rest := by
  rw [assign_pass.eq_def]
  simp [hs]

theorem assign_pass_cons_rr (sips : List String) (d : Downloader)
    (ds : List Downloader) (asg : List (String × String))
    (hs : (dict_get asg d.alias_name).isSome = false) :
    assign_pass sips (d :: ds) asg [] =
      assign_pass sips ds
        (dict_insert d.alias_name (sips.getD (asg.length % sips.length) "") asg) [] := by
  rw [assign_pass.eq_def]
  simp [hs]

theorem assign_pass_keeps (sips : List String) :
    ∀ (ds : List Downloader) (asg : List (String × String)) (avail : List String)
      (a v : String), dict_get asg a = some v →
      dict_get (assign_pass sips ds asg avail) a = some v := by
  intro ds
  induction ds with
  | nil =>
    intro asg avail a v h
    simpa [assign_pass] using h
  | cons d ds ih =>
    intro asg avail a v h
    by_cases hs : (dict_get asg d.alias_name).isSome = true
    · rw [assign_pass_cons_assigned sips d ds asg avail hs]
      exact ih _ _ _ _ h
    · have hs' : (dict_get asg d.alias_name).isSome = false := by
        revert hs; cases (dict_get asg d.alias_name).isSome <;> simp
      have hane : a ≠ d.alias_name := by
        intro hcon
        subst hcon
        rw [h] at hs'
        cases hs'
      cases avail with
      | cons t rest =>
        rw [assign_pass_cons_pool sips d ds asg t rest hs']
        exact ih _ _ _ _ (by rw [dict_get_insert_ne _ _ _ _ hane]; exact h)
      | nil =>
        rw [assign_pass_cons_rr sips d ds asg hs']
        exact ih _ _ _ _ (by rw [dict_get_insert_ne _ _ _ _ hane]; exact h)

theorem assign_pass_total (sips : List String) :
    ∀ (ds : List Downloader) (asg : List (String × String)) (avail : List String),
      ∀ d ∈ ds, ∃ v, dict_get (assign_pass sips ds asg avail) d.alias_name = some v := by
  intro ds
  induction ds with
  | nil =>
    intro asg avail d hd
    cases hd
  | cons d0 ds ih =>
    intro asg avail d hd
    by_cases hs : (dict_get asg d0.alias_name).isSome = true
    · rw [assign_pass_cons_assigned sips d0 ds asg avail hs]
      rcases List.mem_cons.mp hd with rfl | hd
      · obtain ⟨v, hv⟩ := Option.isSome_iff_exists.mp hs
        exact ⟨v, assign_pass_keeps sips ds asg avail _ v hv⟩
      · exact ih _ _ d hd
    · have hs' : (dict_get asg d0.alias_name).isSome = false := by
        revert hs; cases (dict_get asg d0.alias_name).isSome <;> simp
      cases avail with
      | cons t rest =>
        rw [assign_pass_cons_pool sips d0 ds asg t rest hs']
        rcases List.mem_cons.mp hd with rfl | hd
        · exact ⟨t, assign_pass_keeps sips ds _ rest _ t (dict_get_insert_self _ _ _)⟩
        · exact ih _ _ d hd
      | nil =>
        rw [assign_pass_cons_rr sips d0 ds asg hs']
        rcases List.mem_cons.mp hd with rfl | hd
        · exact ⟨_, assign_pass_keeps sips ds _ [] _ _ (dict_get_insert_self _ _ _)⟩
        · exact ih _ _ d hd

theorem assign_pass_values_subset (sips : List String) (hne : sips ≠ []) :
    ∀ (ds : List Downloader) (asg : List (String × String)) (avail : List String),
      (∀ p ∈ asg, p.2 ∈ sips) → (∀ x ∈ avail, x ∈ sips) →
      ∀ p ∈ assign_pass sips ds asg avail, p.2 ∈ sips := by
  intro ds
  induction ds with
  | nil =>
    intro asg avail hasg _ p hp
    exact hasg p (by simpa [assign_pass] using hp)
  | cons d ds ih =>
    intro asg avail hasg havail p hp
    by_cases hs : (dict_get asg d.alias_name).isSome = true
    · rw [assign_pass_cons_assigned sips d ds asg avail hs] at hp
      exact ih _ _ hasg havail p hp
    · have hs' : (dict_get asg d.alias_name).isSome = false := by
        revert hs; cases (dict_get asg d.alias_name).isSome <;> simp
      cases avail with
      | cons t rest =>
        rw [assign_pass_cons_pool sips d ds asg t rest hs'] at hp
        refine ih _ _ ?_ (fun x hx => havail x (List.mem_cons_of_mem _ hx)) p hp
        intro q hq
        rcases mem_dict_insert _ _ _ _ hq with rfl | hq
        · exact havail t (List.mem_cons_self _ _)
        · exact hasg q hq
      | nil =>
        rw [assign_pass_cons_rr sips d ds asg hs'] at hp
        refine ih _ _ ?_ (fun x hx => absurd hx (List.not_mem_nil x)) p hp
        intro q hq
        rcases mem_dict_insert _ _ _ _ hq with rfl | hq
        · have hlen : asg.length % sips.length < sips.length :=
            Nat.mod_lt _ (List.length_pos_of_ne_nil hne)
          rw [List.getD_eq_getElem _ _ hlen]
          exact List.getElem_mem hlen
        · exact hasg q hq

theorem assign_pass_skip_all (sips : List String) :
    ∀ (ds : List Downloader) (asg : List (String × String)) (avail : List String),
      (∀ d ∈ ds, (dict_get asg d.alias_name).isSome = true) →
      assign_pass sips ds asg avail = asg := by
  intro ds
  induction ds with
  | nil => intro asg avail _; rfl
  | cons d ds ih =>
    intro asg avail hall
    rw [assign_pass_cons_assigned sips d ds asg avail (hall d (List.mem_cons_self _ _))]
    exact ih _ _ (fun d' hd' => hall d' (List.mem_cons_of_mem _ hd'))

theorem assign_pass_nodup (sips : List String) :
    ∀ (ds : List Downloader) (asg : List (String × String)) (avail : List String),
      (asg.map Prod.fst).Nodup →
      (asg.map Prod.snd).Nodup →
      avail.Nodup →
      (∀ x ∈ avail, x ∉ asg.map Prod.snd) →
      ((ds.filter fun d => (dict_get asg d.alias_name).isNone).length ≤ avail.length) →
      (((assign_pass sips ds asg avail).map Prod.fst).Nodup
       ∧ ((assign_pass sips ds asg avail).map Prod.snd).Nodup) := by
  intro ds
  induction ds with
  | nil =>
    intro asg avail hk hv _ _ _
    exact ⟨hk, hv⟩
  | cons d ds ih =>
    intro asg avail hk hv hav hdisj hcount
    by_cases hs : (dict_get asg d.alias_name).isSome = true
    · rw [assign_pass_cons_assigned sips d ds asg avail hs]
      refine ih _ _ hk hv hav hdisj (le_trans ?_ hcount)
      rw [List.filter_cons, if_neg (by
        simp only [Option.isNone_iff_eq_none]
        intro hcon
        rw [hcon] at hs
        cases hs)]
    · have hs' : (dict_get asg d.alias_name).isSome = false := by
        revert hs; cases (dict_get asg d.alias_name).isSome <;> simp
      have hnone : dict_get asg d.alias_name = none := by
        cases hdg : dict_get asg d.alias_name with
        | none => rfl
        | some v => rw [hdg] at hs'; cases hs'
      have hfilter : (List.filter (fun d => (dict_get asg d.alias_name).isNone) (d :: ds)).length
          = ((ds.filter fun d => (dict_get asg d.alias_name).isNone).length) + 1 := by
        rw [List.filter_cons, if_pos (by simp [hnone])]
        simp
      have hkey : d.alias_name ∉ asg.map Prod.fst := (dict_get_eq_none_iff _ _).mp hnone
      cases avail with
      | nil =>
        rw [hfilter] at hcount
        simp at hcount
      | cons t rest =>
        have hins : dict_insert d.alias_name t asg = asg ++ [(d.alias_name, t)] :=
          dict_insert_of_not_mem _ _ _ hkey
        rw [assign_pass_cons_pool sips d ds asg t rest hs', hins]
        apply ih
        · simp only [List.map_append, List.map_cons, List.map_nil]
          exact nodup_append_singleton hk hkey
        · simp only [List.map_append, List.map_cons, List.map_nil]
          exact nodup_append_singleton hv (hdisj t (List.mem_cons_self _ _))
        · exact (List.nodup_cons.mp hav).2
        · intro x hx
          simp only [List.map_append, List.map_cons, List.map_nil, List.mem_append,
            List.mem_singleton, not_or]
          refine ⟨hdisj x (List.mem_cons_of_mem _ hx), ?_⟩
          intro hcon
          subst hcon
          exact (List.nodup_cons.mp hav).1 hx
        · rw [hfilter] at hcount
          simp only [List.length_cons] at hcount
          refine le_trans ?_ (Nat.le_of_succ_le_succ hcount)
          apply length_filter_mono
          intro d' hd'
          simp only [Option.isNone_iff_eq_none] at hd' ⊢
          rw [← hins] at hd'
          by_cases hda : d'.alias_name = d.alias_name
          · exfalso
            rw [hda, dict_get_insert_self] at hd'
            cases hd'
          · rwa [dict_get_insert_ne _ _ _ _ hda] at hd'

theorem count_pass_cons_none (postOk : String → String → Bool)
    (cur asg : List (String × String)) (d : Downloader) (ds : List Downloader)
    (r : SyncResult) (h : dict_get asg d.alias_name = none) :
    count_pass postOk cur asg (d :: ds) r =
      count_pass postOk cur asg ds { r with failed := r.failed + 1 } := by
  rw [count_pass.eq_def]
  simp [h]

theorem count_pass_cons_empty (postOk : String → String → Bool)
    (cur asg : List (String × String)) (d : Downloader) (ds : List Downloader)
    (r : SyncResult) (h : dict_get asg d.alias_name = some "") :
    count_pass postOk cur asg (d :: ds) r =
      count_pass postOk cur asg ds { r with failed := r.failed + 1 } := by
  rw [count_pass.eq_def]
  simp [h]

theorem count_pass_cons_kept (postOk : String → String → Bool)
    (cur asg : List (String × String)) (d : Downloader) (ds : List Downloader)
    (r : SyncResult) (t : String) (h : dict_get asg d.alias_name = some t)
    (ht : t ≠ "") (hcur : dict_get cur d.alias_name = some t) :
    count_pass postOk cur asg (d :: ds) r =
      count_pass postOk cur asg ds { r with kept := r.kept + 1 } := by
  rw [count_pass.eq_def]
  simp [h, ht, hcur]

theorem count_pass_cons_updated (postOk : String → String → Bool)
    (cur asg : List (String × String)) (d : Downloader) (ds : List Downloader)
    (r : SyncResult) (t : String) (h : dict_get asg d.alias_name = some t)
    (ht : t ≠ "") (hcur : dict_get cur d.alias_name ≠ some t)
    (hupd : (update_downloader_ip (postOk d.alias_name t) d t).1 = true) :
    count_pass postOk cur asg (d :: ds) r =
      count_pass postOk cur asg ds { r with updated := r.updated + 1 } := by
  rw [count_pass.eq_def]
  simp [h, ht, hcur, hupd]

theorem count_pass_cons_failed_upd (postOk : String → String → Bool)
    (cur asg : List (String × String)) (d : Downloader) (ds : List Downloader)
    (r : SyncResult) (t : String) (h : dict_get asg d.alias_name = some t)
    (ht : t ≠ "") (hcur : dict_get cur d.alias_name ≠ some t)
    (hupd : (update_downloader_ip (postOk d.alias_name t) d t).1 = false) :
    count_pass postOk cur asg (d :: ds) r =
      count_pass postOk cur asg ds { r with failed := r.failed + 1 } := by
  rw [count_pass.eq_def]
  simp [h, ht, hcur, hupd]

theorem count_pass_sum (postOk : String → String → Bool)
    (cur asg : List (String × String)) :
    ∀ (ds : List Downloader) (r : SyncResult),
      (count_pass postOk cur asg ds r).updated + (count_pass postOk cur asg ds r).kept +
          (count_pass postOk cur asg ds r).failed =
        r.updated + r.kept + r.failed + ds.length := by
  intro ds
  induction ds with
  | nil =>
    intro r
    simp [count_pass]
  | cons d ds ih =>
    intro r
    cases h : dict_get asg d.alias_name with
    | none =>
      rw [count_pass_cons_none postOk cur asg d ds r h, ih]
      simp only [List.length_cons]
      omega
    | some t =>
      by_cases ht : t = ""
      · subst ht
        rw [count_pass_cons_empty postOk cur asg d ds r h, ih]
        simp only [List.length_cons]
        omega
      · by_cases hcur : dict_get cur d.alias_name = some t
        · rw [count_pass_cons_kept postOk cur asg d ds r t h ht hcur, ih]
          simp only [List.length_cons]
          omega
        · cases hupd : (update_downloader_ip (postOk d.alias_name t) d t).1 with
          | true =>
            rw [count_pass_cons_updated postOk cur asg d ds r t h ht hcur hupd, ih]
            simp only [List.length_cons]
            omega
          | false =>
            rw [count_pass_cons_failed_upd postOk cur asg d ds r t h ht hcur hupd, ih]
            simp only [List.length_cons]
            omega

theorem count_pass_all_kept (postOk : String → String → Bool)
    (cur asg : List (String × String)) :
    ∀ (ds : List Downloader) (r : SyncResult),
      (∀ d ∈ ds, ∃ t, dict_get asg d.alias_name = some t ∧ t ≠ "" ∧
        dict_get cur d.alias_name = some t) →
      count_pass postOk cur asg ds r = { r with kept := r.kept + ds.length } := by
  intro ds
  induction ds with
  | nil =>
    intro r _
    simp [count_pass]
  | cons d ds ih =>
    intro r hall
    obtain ⟨t, h1, h2, h3⟩ := hall d (List.mem_cons_self _ _)
    rw [count_pass_cons_kept postOk cur asg d ds r t h1 h2 h3,
      ih _ (fun d' hd' => hall d' (List.mem_cons_of_mem _ hd'))]
    obtain ⟨u, k, f⟩ := r
    show SyncResult.mk u (k + 1 + ds.length) f = SyncResult.mk u (k + (d :: ds).length) f
    simp only [List.length_cons]
    rw [Nat.add_assoc, Nat.add_comm 1 ds.length]

theorem count_pass_failed_count (postOk : String → String → Bool)
    (cur asg : List (String × String)) :
    ∀ (ds : List Downloader) (r : SyncResult),
      (∀ d ∈ ds, ∃ t, dict_get asg d.alias_name = some t ∧ t ≠ "") →
      (count_pass postOk cur asg ds r).failed =
        r.failed + (ds.filter (update_failed postOk cur asg)).length := by
  intro ds
  induction ds with
  | nil =>
    intro r _
    simp [count_pass]
  | cons d ds ih =>
    intro r hall
    obtain ⟨t, h1, h2⟩ := hall d (List.mem_cons_self _ _)
    have htail := fun d' hd' => hall d' (List.mem_cons_of_mem _ hd')
    by_cases hcur : dict_get cur d.alias_name = some t
    · rw [count_pass_cons_kept postOk cur asg d ds r t h1 h2 hcur, ih _ htail]
      rw [List.filter_cons, if_neg (by simp [update_failed, h1, h2, hcur])]
    · cases hupd : (update_downloader_ip (postOk d.alias_name t) d t).1 with
      | true =>
        rw [count_pass_cons_updated postOk cur asg d ds r t h1 h2 hcur hupd, ih _ htail]
        rw [List.filter_cons, if_neg (by simp [update_failed, h1, h2, hcur, hupd])]
      | false =>
        rw [count_pass_cons_failed_upd postOk cur asg d ds r t h1 h2 hcur hupd, ih _ htail]
        rw [List.filter_cons, if_pos (by simp [update_failed, h1, h2, hcur, hupd])]
        simp only [List.length_cons]
        omega

theorem values_nodup_inj (m : List (String × String))
    (hv : (m.map Prod.snd).Nodup) :
    ∀ a₁ a₂ t, (a₁, t) ∈ m → (a₂, t) ∈ m → a₁ = a₂ := by
  induction m with
  | nil =>
    intro a₁ a₂ t h1 _
    cases h1
  | cons p m ih =>
    obtain ⟨a, v⟩ := p
    intro a₁ a₂ t h1 h2
    simp only [List.map_cons, List.nodup_cons] at hv
    rcases List.mem_cons.mp h1 with h1 | h1 <;> rcases List.mem_cons.mp h2 with h2 | h2
    · rw [Prod.mk.injEq] at h1 h2
      rw [h1.1, h2.1]
    · exfalso
      rw [Prod.mk.injEq] at h1
      exact hv.1 (h1.2 ▸ List.mem_map_of_mem Prod.snd h2)
    · exfalso
      rw [Prod.mk.injEq] at h2
      exact hv.1 (h2.2 ▸ List.mem_map_of_mem Prod.snd h1)
    · exact ih hv.2 a₁ a₂ t h1 h2

theorem preserve_pass_avail_subset (sips : List String) (isDup : String → Bool) :
    ∀ (items asg : List (String × String)) (avail : List String),
      ∀ x ∈ (preserve_pass sips isDup items asg avail).2, x ∈ avail := by
  intro items
  induction items with
  | nil =>
    intro asg avail x hx
    simpa [preserve_pass] using hx
  | cons q items ih =>
    obtain ⟨a, ip⟩ := q
    intro asg avail x hx
    rw [preserve_pass] at hx
    by_cases hc : (sips.contains ip && !isDup ip) = true
    · rw [if_pos hc] at hx
      exact List.mem_of_mem_erase (ih _ _ x hx)
    · rw [if_neg hc] at hx
      exact ih _ _ x hx

theorem preserve_result_facts (sips : List String) (ds : List Downloader)
    (hnds : sips.Nodup) (hal : (ds.map Downloader.alias_name).Nodup) :
    (((preserve_result sips ds).1.map Prod.fst).Nodup
     ∧ ((preserve_result sips ds).1.map Prod.snd).Nodup
     ∧ (∀ p ∈ (preserve_result sips ds).1, p.2 ∈ sips)
     ∧ (preserve_result sips ds).2.Nodup
     ∧ (∀ x ∈ (preserve_result sips ds).2, x ∉ (preserve_result sips ds).1.map Prod.snd)
     ∧ (preserve_result sips ds).1.length + (preserve_result sips ds).2.length
         = sips.length) := by
  have hitems : build_current_ips ds = current_entries ds := build_current_ips_eq ds hal
  have hkitems : ((current_entries ds).map Prod.fst).Nodup :=
    List.Nodup.sublist (current_entries_keys_sublist ds) hal
  rw [preserve_result, hitems]
  apply preserve_pass_invariant sips (is_duplicate_ip ds) hnds (current_entries ds) [] sips
  · simp
  · simp
  · intro p hp
    exact absurd hp (List.not_mem_nil p)
  · intro p _ q hq
    exact absurd hq (List.not_mem_nil q)
  · exact hkitems
  · intro ip h
    simp only [List.map_nil, List.count_nil, current_entries_values, Nat.zero_add]
    simp only [is_duplicate_ip, decide_eq_false_iff_not, not_lt] at h
    exact h
  · exact hnds
  · exact fun x hx => hx
  · intro x _
    simp
  · exact fun x hx _ => hx
  · simp

theorem preserve_result_keys_sub (sips : List String) (ds : List Downloader)
    (hal : (ds.map Downloader.alias_name).Nodup) :
    ∀ x ∈ (preserve_result sips ds).1.map Prod.fst, x ∈ ds.map Downloader.alias_name := by
  intro x hx
  obtain ⟨p, hp, rfl⟩ := List.mem_map.mp hx
  rw [preserve_result] at hp
  rcases preserve_pass_mem sips (is_duplicate_ip ds) (build_current_ips ds) [] sips p hp
    with h | h
  · cases h
  · rw [build_current_ips_eq ds hal] at h
    obtain ⟨d, hd, hda, _⟩ := (mem_current_entries ds p).mp h.1
    rw [← hda]
    exact List.mem_map_of_mem _ hd

theorem unassigned_count_le (sips : List String) (ds : List Downloader)
    (hnds : sips.Nodup) (hal : (ds.map Downloader.alias_name).Nodup)
    (hcard : ds.length ≤ sips.length) :
    (ds.filter fun d => (dict_get (preserve_result sips ds).1 d.alias_name).isNone).length
      ≤ (preserve_result sips ds).2.length := by
  obtain ⟨hk, hv, hvs, hav, hdisj, hlen⟩ := preserve_result_facts sips ds hnds hal
  have hKsub : ∀ x ∈ (preserve_result sips ds).1.map Prod.fst,
      x ∈ ds.map Downloader.alias_name := preserve_result_keys_sub sips ds hal
  have hpart : ds.length =
      (ds.filter fun d => (dict_get (preserve_result sips ds).1 d.alias_name).isNone).length +
      (ds.filter fun d =>
        !(dict_get (preserve_result sips ds).1 d.alias_name).isNone).length :=
    List.length_eq_length_filter_add _
  have hcongr : ∀ d ∈ ds, (!(dict_get (preserve_result sips ds).1 d.alias_name).isNone)
      = ((preserve_result sips ds).1.map Prod.fst).contains d.alias_name := by
    intro d _
    by_cases hmem : d.alias_name ∈ (preserve_result sips ds).1.map Prod.fst
    · have h1 : (dict_get (preserve_result sips ds).1 d.alias_name).isSome = true :=
        (dict_get_isSome_iff _ _).mpr hmem
      have h2 : ((preserve_result sips ds).1.map Prod.fst).contains d.alias_name = true :=
        (contains_iff_mem_str _ _).mpr hmem
      rw [h2]
      cases hdg : dict_get (preserve_result sips ds).1 d.alias_name with
      | none => rw [hdg] at h1; cases h1
      | some v => simp
    · have h1 : dict_get (preserve_result sips ds).1 d.alias_name = none :=
        (dict_get_eq_none_iff _ _).mpr hmem
      have h2 : ((preserve_result sips ds).1.map Prod.fst).contains d.alias_name = false := by
        cases hc : ((preserve_result sips ds).1.map Prod.fst).contains d.alias_name
        · rfl
        · exact absurd ((contains_iff_mem_str _ _).mp hc) hmem
      rw [h1, h2]
      rfl
  have hfc : (ds.filter fun d => !(dict_get (preserve_result sips ds).1 d.alias_name).isNone)
      = ds.filter fun d =>
          ((preserve_result sips ds).1.map Prod.fst).contains d.alias_name :=
    List.filter_congr hcongr
  have hmapfilter : ((ds.map Downloader.alias_name).filter fun x =>
        ((preserve_result sips ds).1.map Prod.fst).contains x)
      = (ds.filter fun d =>
          ((preserve_result sips ds).1.map Prod.fst).contains d.alias_name).map
            Downloader.alias_name := by
    exact List.filter_map Downloader.alias_name ds
  have hlenS : (ds.filter fun d =>
      ((preserve_result sips ds).1.map Prod.fst).contains d.alias_name).length
      = (preserve_result sips ds).1.length := by
    have h1 : ((ds.map Downloader.alias_name).filter fun x =>
        ((preserve_result sips ds).1.map Prod.fst).contains x).length
        = ((preserve_result sips ds).1.map Prod.fst).length :=
      length_filter_contains _ _ hal hk hKsub
    rw [hmapfilter, List.length_map] at h1
    rw [h1, List.length_map]
  rw [hfc] at hpart
  omega

theorem final_assignment_facts (sips : List String) (ds : List Downloader)
    (hnds : sips.Nodup) (hal : (ds.map Downloader.alias_name).Nodup)
    (hcard : ds.length ≤ sips.length) :
    ((final_assignment sips ds).map Prod.fst).Nodup
    ∧ ((final_assignment sips ds).map Prod.snd).Nodup := by
  obtain ⟨hk, hv, hvs, hav, hdisj, hlen⟩ := preserve_result_facts sips ds hnds hal
  rw [final_assignment]
  exact assign_pass_nodup sips ds _ _ hk hv hav hdisj (unassigned_count_le sips ds hnds hal hcard)

theorem final_assignment_total_mem (sips : List String) (ds : List Downloader)
    (hne : sips ≠ []) :
    ∀ a ∈ ds.map Downloader.alias_name,
      ∃ t, dict_get (final_assignment sips ds) a = some t ∧ t ∈ sips := by
  intro a ha
  obtain ⟨d, hd, rfl⟩ := List.mem_map.mp ha
  rw [final_assignment]
  obtain ⟨t, ht⟩ := assign_pass_total sips ds (preserve_result sips ds).1
    (preserve_result sips ds).2 d hd
  refine ⟨t, ht, ?_⟩
  have hmem := dict_get_mem _ _ _ ht
  have hval := assign_pass_values_subset sips hne ds (preserve_result sips ds).1
    (preserve_result sips ds).2 ?_ ?_ _ hmem
  · exact hval
  · intro p hp
    rw [preserve_result] at hp
    rcases preserve_pass_mem sips (is_duplicate_ip ds) (build_current_ips ds) [] sips p hp
      with h | h
    · cases h
    · exact h.2.2
  · intro x hx
    rw [preserve_result] at hx
    exact preserve_pass_avail_subset sips (is_duplicate_ip ds) (build_current_ips ds) [] sips x hx

/-- C1: with a non-empty live address set, an address referenced by more than
one client record is never kept in the preserve pass for any client, and —
whenever at least as many live addresses exist as client records — no two
client records (distinct aliases) end the run assigned the same address. -/
theorem C1_conflict_resolution (sips : List String) (ds : List Downloader)
    (_hne : sips ≠ []) (hnds : sips.Nodup)
    (hal : (ds.map Downloader.alias_name).Nodup) :
    (∀ a ip, (a, ip) ∈ (preserve_result sips ds).1 → is_duplicate_ip ds ip = false)
    ∧ (ds.length ≤ sips.length →
        ∀ a₁ a₂ t₁ t₂, a₁ ≠ a₂ →
          dict_get (final_assignment sips ds) a₁ = some t₁ →
          dict_get (final_assignment sips ds) a₂ = some t₂ → t₁ ≠ t₂) := by
  constructor
  · intro a ip hp
    rw [preserve_result] at hp
    rcases preserve_pass_mem sips (is_duplicate_ip ds) (build_current_ips ds) [] sips
      (a, ip) hp with h | h
    · cases h
    · exact h.2.1
  · intro hcard a₁ a₂ t₁ t₂ hane h1 h2
    obtain ⟨hkf, hvf⟩ := final_assignment_facts sips ds hnds hal hcard
    intro hcon
    subst hcon
    exact hane (values_nodup_inj _ hvf a₁ a₂ t₁ (dict_get_mem _ _ _ h1) (dict_get_mem _ _ _ h2))

/-- Witness for C1: with live set `{1.1.1.1, 2.2.2.2}` and two records both
configured to `1.1.1.1`, the two records end with distinct addresses. -/
theorem C1_conflict_resolution_witness : ("1.1.1.1" : String) ≠ "2.2.2.2" :=
  (C1_conflict_resolution ["1.1.1.1", "2.2.2.2"] c1_records (by decide) (by decide)
      (by decide)).2 (by decide) "HetznerA" "HetznerB" "1.1.1.1" "2.2.2.2"
    (by decide) (by decide) (by decide)

/-- C10: with a non-empty live set and a non-empty fetched record list, every
record is counted in exactly one of the three counters (their sum is the
record count); every record resolves to a non-empty target (the
"no resolvable target" branch is unreachable, given that live addresses are
non-empty strings); and `failed` counts exactly the records whose update call
itself failed. -/
theorem C10_counter_partition (postOk : String → String → Bool)
    (sips : List String) (ds : List Downloader)
    (hne : sips ≠ []) (hempty : "" ∉ sips) (hds : ds ≠ []) :
    ((sync_downloaders_with_servers postOk sips ds).updated
      + (sync_downloaders_with_servers postOk sips ds).kept
      + (sync_downloaders_with_servers postOk sips ds).failed = ds.length)
    ∧ (∀ d ∈ ds, ∃ t, dict_get (final_assignment sips ds) d.alias_name = some t ∧ t ≠ "")
    ∧ ((sync_downloaders_with_servers postOk sips ds).failed
        = (ds.filter
            (update_failed postOk (build_current_ips ds) (final_assignment sips ds))).length) := by
  have hsync : sync_downloaders_with_servers postOk sips ds =
      count_pass postOk (build_current_ips ds) (final_assignment sips ds) ds ⟨0, 0, 0⟩ := by
    rw [sync_downloaders_with_servers, if_neg (by simp [hne]), if_neg (by simp [hds])]
  have htot : ∀ d ∈ ds, ∃ t,
      dict_get (final_assignment sips ds) d.alias_name = some t ∧ t ≠ "" := by
    intro d hd
    obtain ⟨t, ht, hts⟩ := final_assignment_total_mem sips ds hne d.alias_name
      (List.mem_map_of_mem _ hd)
    refine ⟨t, ht, ?_⟩
    intro hcon
    subst hcon
    exact hempty hts
  refine ⟨?_, htot, ?_⟩
  · rw [hsync, count_pass_sum]
    simp
  · rw [hsync, count_pass_failed_count postOk _ _ ds ⟨0, 0, 0⟩ htot]
    simp

/-- Witness for C10 at the concrete conflicted records (all updates fail). -/
theorem C10_counter_partition_witness :
    (sync_downloaders_with_servers (fun _ _ => false) ["1.1.1.1", "2.2.2.2"]
        c1_records).updated
      + (sync_downloaders_with_servers (fun _ _ => false) ["1.1.1.1", "2.2.2.2"]
          c1_records).kept
      + (sync_downloaders_with_servers (fun _ _ => false) ["1.1.1.1", "2.2.2.2"]
          c1_records).failed = 2 :=
  (C10_counter_partition (fun _ _ => false) ["1.1.1.1", "2.2.2.2"] c1_records
    (by decide) (by decide) (by decide)).1

theorem sync_all_kept (postOk : String → String → Bool) (sips : List String)
    (ds : List Downloader) (hne : sips ≠ []) (hds : ds ≠ [])
    (hal : (ds.map Downloader.alias_name).Nodup)
    (hext : ∀ d ∈ ds, ∃ ip, extract_ip_from_url d.clientUrl = some ip ∧ ip ∈ sips)
    (hipsnd : (extracted_ips ds).Nodup) :
    sync_downloaders_with_servers postOk sips ds = ⟨0, ds.length, 0⟩ := by
  have hitems : build_current_ips ds = current_entries ds := build_current_ips_eq ds hal
  have hallpres : ∀ p ∈ current_entries ds, p.2 ∈ sips ∧ is_duplicate_ip ds p.2 = false := by
    intro p hp
    obtain ⟨d, hd, hda, hdext⟩ := (mem_current_entries ds p).mp hp
    obtain ⟨ip, hip1, hip2⟩ := hext d hd
    rw [hdext] at hip1
    obtain rfl : p.2 = ip := by injection hip1
    refine ⟨hip2, ?_⟩
    simp only [is_duplicate_ip, decide_eq_false_iff_not, not_lt]
    exact List.nodup_iff_count_le_one.mp hipsnd _
  have hpres : (preserve_result sips ds).1 = current_entries ds := by
    rw [preserve_result, hitems]
    rw [preserve_pass_all sips (is_duplicate_ip ds) (current_entries ds) [] sips hallpres
      (fun p _ q hq => absurd hq (List.not_mem_nil q))
      (List.Nodup.sublist (current_entries_keys_sublist ds) hal)]
    simp
  have hlook : ∀ d ∈ ds, ∃ ip, dict_get (current_entries ds) d.alias_name = some ip ∧
      extract_ip_from_url d.clientUrl = some ip := by
    intro d hd
    obtain ⟨ip, hip, _⟩ := hext d hd
    exact ⟨ip, by rw [dict_get_current_entries ds hal d hd]; exact hip, hip⟩
  have hfin : final_assignment sips ds = current_entries ds := by
    rw [final_assignment, hpres]
    apply assign_pass_skip_all
    intro d hd
    obtain ⟨ip, hip, _⟩ := hlook d hd
    rw [hip]
    rfl
  rw [sync_downloaders_with_servers, if_neg (by simp [hne]), if_neg (by simp [hds]),
    hitems, hfin]
  rw [count_pass_all_kept postOk (current_entries ds) (current_entries ds) ds ⟨0, 0, 0⟩ ?_]
  · simp
  · intro d hd
    obtain ⟨ip, hip, hipx⟩ := hlook d hd
    exact ⟨ip, hip, extract_ip_ne_empty _ _ hipx, hip⟩

/-- C7: reconciliation is idempotent — when the records of a second run carry
exactly the addresses assigned by a first run (same aliases, no conflicts
remaining), the second run keeps every record and issues no updates:
`{updated: 0, kept: |records|, failed: 0}`. -/
theorem C7_reconcile_idempotent (postOk' : String → String → Bool) (sips : List String)
    (ds ds' : List Downloader)
    (hne : sips ≠ []) (hal : (ds.map Downloader.alias_name).Nodup)
    (hsame : ds'.map Downloader.alias_name = ds.map Downloader.alias_name)
    (hds' : ds' ≠ [])
    (hrefl : ∀ d' ∈ ds', extract_ip_from_url d'.clientUrl =
      dict_get (final_assignment sips ds) d'.alias_name)
    (hnoconf : (extracted_ips ds').Nodup) :
    sync_downloaders_with_servers postOk' sips ds' = ⟨0, ds'.length, 0⟩ := by
  apply sync_all_kept postOk' sips ds' hne hds' (by rw [hsame]; exact hal) ?_ hnoconf
  intro d' hd'
  have halias : d'.alias_name ∈ ds.map Downloader.alias_name := by
    rw [← hsame]
    exact List.mem_map_of_mem _ hd'
  obtain ⟨t, ht, hts⟩ := final_assignment_total_mem sips ds hne d'.alias_name halias
  exact ⟨t, by rw [hrefl d' hd']; exact ht, hts⟩

/-- Witness for C7: the second run over the reconciled records keeps both. -/
theorem C7_reconcile_idempotent_witness :
    sync_downloaders_with_servers (fun _ _ => true) ["1.1.1.1", "2.2.2.2"] c7_records =
      ⟨0, 2, 0⟩ :=
  C7_reconcile_idempotent (fun _ _ => true) ["1.1.1.1", "2.2.2.2"] c1_records c7_records
    (by decide) (by decide) (by decide) (by decide) (by decide) (by decide)
